import Mathlib

/-!
# Verification of the Directory-Snapshot traversal core

Shallow embedding of `get_snapshot` from `src/dir_snap.py`.

Modelling choices, in correspondence with the source:

* A filesystem path is a `List String` of components.  `src_path.name` is the
  last component, `dest_path / src_path.name` is list append.
* A directory entry is observed through the `pathlib` predicates that
  `get_snapshot` actually calls: `Entry.is_dir` models `Path.is_dir()` (which
  follows symlinks, so it is `true` for a symlink whose target is a
  directory), `Entry.is_symlink` models `Path.is_symlink()`, `Entry.size`
  models `entry.stat().st_size`, and `Entry.resolvedName` models
  `entry.resolve().name`.  `Entry.procFails` is the oracle for the per-entry
  `try`/`except` blocks: it records that processing this entry raises an
  exception (permission error, entry vanishing mid-walk).
* The listing collaborator `list_dir_contents` lives outside `src/`; its
  result at each directory is given by the inductive tree `FSTree`: `none`
  models the `None` returned for an unlistable directory, and each listed
  child carries the subtree that a recursive call into it would observe.
  The flags `ignore_hidden` / `ignore_symlinks` only affect the collaborator,
  so they are absorbed into the tree (except for `ignore_symlinks`, which
  `get_snapshot` itself reads to decide whether to emit the symlinks table).
* The destination filesystem is a `DestState`: a set of directories plus an
  association of file paths to document contents.  Documents are lists of
  structured `DocItem`s; the concrete strings produced by the templating
  collaborator are opaque to the core, so each `append_text_to_file` of one
  template instantiation is one `DocItem`.
* Every destination side effect is also recorded in a trace of `Action`s, so
  that ordering claims (reset before guard, reset before writes) can be
  stated directly.
* `shutil.rmtree(pwd)` raises when `pwd` is a regular file, and the
  subsequent `mkdir` would raise as well; `get_snapshot` therefore raises
  (before any state change) when a file sits at `pwd`.  This is modelled by
  the `raised` flag of `SnapRes`; a raising recursive call is caught by the
  caller's per-entry handler, like any other per-entry failure.
* Python's `list.sort()` on `Path` values sorts siblings lexicographically
  by name; it is modelled by `List.insertionSort` on the name order (real
  directory listings never contain duplicate names, where any sort agrees).
-/

namespace DirSnap

/-- A directory entry as observed through the `pathlib` predicates used by
`get_snapshot` (see the module docstring). -/
structure Entry where
  name : String
  is_dir : Bool
  is_symlink : Bool
  size : Nat
  procFails : Bool
  resolvedName : String
deriving DecidableEq, Repr

/-- The result of `list_dir_contents` at one directory, together with the
subtrees the recursion would observe below each listed child.  `node none`
models the `None` result for an unlistable directory. -/
inductive FSTree where
  | node : Option (List (Entry × FSTree)) → FSTree

/-- One structured unit of report-document content: each constructor stands
for one `write_text`/`append_text_to_file` call site in `dir_snap.py`, with
the data that the (collaborator-owned) template is instantiated with. -/
inductive DocItem where
  | htmlHeader (dirname : String)
  | selfRefMarker
  | filesTableHeader
  | noFiles
  | fileRow (name : String) (size : Nat)
  | tableClose
  | dirsTableHeader
  | noSubdirs
  | depthLimitReached
  | dirRow (name : String) (size : Int)
  | symlinksTableHeader
  | noSymlinks
  | symlinkRow (name : String) (target : String)
  | tableFooter (total : Int)
deriving DecidableEq, Repr

/-- One destination-side effect of `get_snapshot`, in program order. -/
inductive Action where
  | rmtreeAct (p : List String)
  | mkdirAct (p : List String)
  | touchAct (p : List String)
  | writeDocAct (p : List String) (it : DocItem)
  | appendDocAct (p : List String) (it : DocItem)
  | logErrorAct (msg : String)
deriving DecidableEq, Repr

/-- The destination filesystem: existing directories and files (a file maps
to its current document content). -/
structure DestState where
  dirs : List (List String)
  files : List (List String × List DocItem)
deriving DecidableEq, Repr

/-- `Path.name`: the last component of a path. -/
def pathName (p : List String) : String := p.getLastD ""

/-- All nonempty prefixes of a path (used for `mkdir(parents=True)`). -/
def pathPrefixes : List String → List (List String)
  | [] => []
  | a :: rest => [a] :: (pathPrefixes rest).map (fun q => a :: q)

/-- Is a directory present at `p`? -/
def DestState.isDirAt (st : DestState) (p : List String) : Bool :=
  st.dirs.any (fun q => q = p)

/-- The document content of the file at `p`, if a file is present there. -/
def DestState.fileAt (st : DestState) (p : List String) : Option (List DocItem) :=
  (st.files.find? (fun f => f.1 = p)).map (fun f => f.2)

/-- `Path.exists()`: a directory or file is present at `p`. -/
def DestState.existsAt (st : DestState) (p : List String) : Bool :=
  st.isDirAt p || (st.fileAt p).isSome

/-- `shutil.rmtree(p)`: remove everything at or below `p`. -/
def DestState.rmtree (st : DestState) (p : List String) : DestState :=
  ⟨st.dirs.filter (fun q => !(p.isPrefixOf q)),
   st.files.filter (fun f => !(p.isPrefixOf f.1))⟩

/-- `p.mkdir(parents=True, exist_ok=True)`: ensure `p` and all its parents
are directories. -/
def DestState.mkdirParents (st : DestState) (p : List String) : DestState :=
  ⟨pathPrefixes p ++ st.dirs, st.files⟩

/-- Overwrite (or create) the file at `p` with content `c`
(`Path.write_text`). -/
def DestState.setFile (st : DestState) (p : List String) (c : List DocItem) : DestState :=
  ⟨st.dirs, (p, c) :: st.files.filter (fun f => !(f.1 = p))⟩

/-- `Path.touch()`: create an empty file at `p` if none is present. -/
def DestState.touch (st : DestState) (p : List String) : DestState :=
  match st.fileAt p with
  | some _ => st
  | none => st.setFile p []

/-- `append_text_to_file`: append one item to the document at `p`
(creating the file when absent, as append mode does). -/
def DestState.appendItem (st : DestState) (p : List String) (it : DocItem) : DestState :=
  st.setFile p ((st.fileAt p).getD [] ++ [it])

mutual
/-- Size measure on listing trees, for termination of the traversal. -/
def FSTree.size : FSTree → Nat
  | .node none => 1
  | .node (some l) => 1 + sizeList l
/-- Size measure on child lists, for termination of the traversal. -/
def sizeList : List (Entry × FSTree) → Nat
  | [] => 0
  | (_, t) :: r => FSTree.size t + sizeList r
end

/-- The classification loop of `get_snapshot` (lines 72-79): each entry goes
into exactly one of the `symlinks`, `files`, `dirs` containers, in this
order of tests: `entry.is_dir()`, then `entry.is_symlink()`, else file. -/
def categorize : List (Entry × FSTree) →
    List (Entry × FSTree) × List (Entry × FSTree) × List (Entry × FSTree)
  | [] => ([], [], [])
  | e :: rest =>
    let c := categorize rest
    if e.1.is_dir then (c.1, c.2.1, e :: c.2.2)
    else if e.1.is_symlink then (e :: c.1, c.2.1, c.2.2)
    else (c.1, e :: c.2.1, c.2.2)

/-- The sort performed on the listing (line 69), lexicographic by name. -/
def sortContents (l : List (Entry × FSTree)) : List (Entry × FSTree) :=
  List.insertionSort (fun a b => a.1.name ≤ b.1.name) l

/-- Total size contributed by the files loop: the byte sizes of the files
whose processing does not fail. -/
def filesRet : List (Entry × FSTree) → Int
  | [] => 0
  | (e, _) :: rest => (if e.procFails then 0 else (e.size : Int)) + filesRet rest

/-- A directory child whose name equals the parent report file name: the
destination path it would mirror to is the parent's report file, so its
`rmtree` raises and the child is skipped by the per-entry handler. -/
def collides (e : Entry) (srcname : String) : Bool := e.name = srcname ++ ".html"

/-- Every listing tree has positive size. -/
theorem FSTree.size_pos : ∀ t : FSTree, 0 < t.size
  | .node none => by simp [FSTree.size]
  | .node (some l) => by simp [FSTree.size]

/-- `sizeList` is invariant under permutation. -/
theorem sizeList_perm {l₁ l₂ : List (Entry × FSTree)} (h : l₁.Perm l₂) :
    sizeList l₁ = sizeList l₂ := by
  induction h with
  | nil => rfl
  | cons x _ ih =>
    obtain ⟨a, t⟩ := x
    simp [sizeList, ih]
  | swap x y l =>
    obtain ⟨a, t⟩ := x
    obtain ⟨b, u⟩ := y
    simp [sizeList]
    omega
  | trans _ _ ih₁ ih₂ => exact ih₁.trans ih₂

/-- The directories bucket of `categorize` is no larger than the input. -/
theorem sizeList_categorize_dirs_le (l : List (Entry × FSTree)) :
    sizeList (categorize l).2.2 ≤ sizeList l := by
  induction l with
  | nil => simp [categorize, sizeList]
  | cons e rest ih =>
    obtain ⟨a, t⟩ := e
    simp only [categorize]
    split
    · simp only [sizeList]
      omega
    · split
      · simp only [sizeList]
        have := FSTree.size_pos t
        omega
      · simp only [sizeList]
        have := FSTree.size_pos t
        omega

/-- Sorting does not change `sizeList`. -/
theorem sizeList_sortContents (l : List (Entry × FSTree)) :
    sizeList (sortContents l) = sizeList l :=
  sizeList_perm (List.perm_insertionSort _ l)

/-- The sorted directories bucket is strictly smaller than the listing node. -/
theorem sizeList_dirs_lt (contents : List (Entry × FSTree)) :
    sizeList (categorize (sortContents contents)).2.2 <
      FSTree.size (FSTree.node (some contents)) := by
  have h1 := sizeList_categorize_dirs_le (sortContents contents)
  rw [sizeList_sortContents] at h1
  simp only [FSTree.size]
  omega

/-- The directories the loop actually iterates over (lines 100-103): cleared
when there are none, or when the recursion depth limit is reached. -/
def effectiveDirs (dirs : List (Entry × FSTree)) (d : Int) : List (Entry × FSTree) :=
  if dirs.isEmpty then dirs else if d = 0 then [] else dirs

theorem effectiveDirs_sizeList_le (c : List (Entry × FSTree)) (d : Int) :
    sizeList (effectiveDirs c d) ≤ sizeList c := by
  unfold effectiveDirs
  split_ifs <;> simp [sizeList]

theorem dec_get_to_body (t : FSTree) : 3 * FSTree.size t - 1 < 3 * FSTree.size t := by
  have := FSTree.size_pos t
  omega

theorem dec_body_to_dirs (c : List (Entry × FSTree)) (d : Int) :
    3 * sizeList (effectiveDirs (categorize (sortContents c)).2.2 d) + 1 <
      3 * FSTree.size (FSTree.node (some c)) - 1 := by
  have h1 := effectiveDirs_sizeList_le (categorize (sortContents c)).2.2 d
  have h2 := sizeList_dirs_lt c
  simp only [FSTree.size] at h2 ⊢
  omega

theorem dec_dirs_to_get (a : Entry) (t : FSTree) (rest : List (Entry × FSTree)) :
    3 * FSTree.size t < 3 * sizeList ((a, t) :: rest) + 1 := by
  simp only [sizeList]
  omega

theorem dec_dirs_to_rest (a : Entry) (t : FSTree) (rest : List (Entry × FSTree)) :
    3 * sizeList rest + 1 < 3 * sizeList ((a, t) :: rest) + 1 := by
  have := FSTree.size_pos t
  simp only [sizeList]
  omega

/-- The result of one traversal step: the value `get_snapshot` returns
(`ret`), whether the call raised before completing (`raised`, in which case
`ret` is meaningless and no effect happened), the destination state after
the call, and the trace of destination effects in program order. -/
structure SnapRes where
  ret : Int
  raised : Bool
  st : DestState
  tr : List Action
deriving DecidableEq, Repr

/-- Lines 47-55 of `dir_snap.py`: delete an existing mirror directory,
recreate it, and create (touch) the report file. -/
def resetLevel (st : DestState) (pwd outFile : List String) : DestState × List Action :=
  let first :=
    if st.existsAt pwd then (st.rmtree pwd, [Action.rmtreeAct pwd]) else (st, ([] : List Action))
  ((first.1.mkdirParents pwd).touch outFile,
    first.2 ++ [Action.mkdirAct pwd, Action.touchAct outFile])

/-- The files loop (lines 88-95): append one row and add the byte size per
file; a failing entry is caught, logged, and contributes nothing. -/
def processFiles (files : List (Entry × FSTree)) (outFile : List String) (st : DestState) :
    SnapRes :=
  match files with
  | [] => ⟨0, false, st, []⟩
  | (e, _) :: rest =>
    if e.procFails then
      let r := processFiles rest outFile st
      ⟨r.ret, false, r.st, Action.logErrorAct e.name :: r.tr⟩
    else
      let r := processFiles rest outFile (st.appendItem outFile (DocItem.fileRow e.name e.size))
      ⟨(e.size : Int) + r.ret, false, r.st,
        Action.appendDocAct outFile (DocItem.fileRow e.name e.size) :: r.tr⟩

/-- The symlinks loop (lines 119-124): append one row per symlink; a failing
entry is caught and logged. -/
def processSymlinks (ls : List (Entry × FSTree)) (outFile : List String) (st : DestState) :
    SnapRes :=
  match ls with
  | [] => ⟨0, false, st, []⟩
  | (e, _) :: rest =>
    if e.procFails then
      let r := processSymlinks rest outFile st
      ⟨0, false, r.st, Action.logErrorAct e.name :: r.tr⟩
    else
      let r := processSymlinks rest outFile
        (st.appendItem outFile (DocItem.symlinkRow e.name e.resolvedName))
      ⟨0, false, r.st,
        Action.appendDocAct outFile (DocItem.symlinkRow e.name e.resolvedName) :: r.tr⟩

/-! ### Pointwise behaviour of the destination-state operations -/

theorem mem_pathPrefixes {q p : List String} :
    q ∈ pathPrefixes p ↔ q ≠ [] ∧ q <+: p := by
  induction p generalizing q with
  | nil => simp [pathPrefixes]
  | cons a rest ih =>
    simp only [pathPrefixes, List.mem_cons, List.mem_map]
    constructor
    · rintro (rfl | ⟨r, hr, rfl⟩)
      · exact ⟨by simp, ⟨rest, rfl⟩⟩
      · obtain ⟨hne, hpre⟩ := ih.mp hr
        exact ⟨by simp, List.cons_prefix_cons.mpr ⟨rfl, hpre⟩⟩
    · rintro ⟨hne, hpre⟩
      match q, hpre with
      | [], _ => exact absurd rfl hne
      | b :: q, h =>
        obtain ⟨rfl, hq⟩ := by simpa [List.cons_prefix_cons] using h
        rcases eq_or_ne q [] with rfl | hq0
        · exact Or.inl rfl
        · exact Or.inr ⟨q, ih.mpr ⟨hq0, hq⟩, rfl⟩

/-- Removing only elements that cannot match leaves `find?` unchanged. -/
theorem find?_filter_comm {α : Type} (l : List α) (p f : α → Bool)
    (h : ∀ x, f x = true → p x = true) : (l.filter p).find? f = l.find? f := by
  induction l with
  | nil => simp
  | cons x l ih =>
    cases hpx : p x with
    | true =>
      simp only [List.filter_cons, hpx, if_true, List.find?_cons]
      cases hfx : f x <;> simp [ih]
    | false =>
      have hfx : f x = false := by
        cases hfx : f x with
        | true => rw [h x hfx] at hpx; cases hpx
        | false => rfl
      simp [List.filter_cons, hpx, List.find?_cons, hfx, ih]

theorem fileAt_rmtree (st : DestState) (p q : List String) :
    (st.rmtree p).fileAt q = if p.isPrefixOf q then none else st.fileAt q := by
  unfold DestState.rmtree DestState.fileAt
  cases hpq : p.isPrefixOf q with
  | true =>
    have hnone : (st.files.filter fun f => !p.isPrefixOf f.1).find?
        (fun f => decide (f.1 = q)) = none := by
      rw [List.find?_eq_none]
      intro x hx hxq
      have hm2 := (List.mem_filter.mp hx).2
      have hxq2 : x.1 = q := of_decide_eq_true hxq
      rw [hxq2, hpq] at hm2
      exact absurd hm2 (by simp)
    simp [hnone]
  | false =>
    have hsame := find?_filter_comm st.files (fun f => !p.isPrefixOf f.1)
      (fun f => decide (f.1 = q)) (by
        intro x hx
        have hxq : x.1 = q := of_decide_eq_true hx
        simp only []
        rw [hxq]
        simp [hpq])
    simp [hsame]

theorem isDirAt_rmtree (st : DestState) (p q : List String) :
    (st.rmtree p).isDirAt q = (st.isDirAt q && !(p.isPrefixOf q)) := by
  unfold DestState.rmtree DestState.isDirAt
  rw [Bool.eq_iff_iff]
  simp only [List.any_eq_true, List.mem_filter, Bool.and_eq_true, decide_eq_true_eq,
    Bool.not_eq_true', Bool.not_eq_false]
  constructor
  · rintro ⟨a, ⟨ha, hpa⟩, rfl⟩
    exact ⟨⟨a, ha, rfl⟩, hpa⟩
  · rintro ⟨⟨a, ha, rfl⟩, hpq⟩
    exact ⟨a, ⟨ha, hpq⟩, rfl⟩

theorem fileAt_mkdirParents (st : DestState) (p q : List String) :
    (st.mkdirParents p).fileAt q = st.fileAt q := rfl

theorem isDirAt_mkdirParents (st : DestState) (p q : List String) :
    (st.mkdirParents p).isDirAt q =
      ((pathPrefixes p).any (fun r => r = q) || st.isDirAt q) := by
  unfold DestState.mkdirParents DestState.isDirAt
  simp [List.any_append]

theorem find?_filter_neq (fs : List (List String × List DocItem)) (p q : List String)
    (h : q ≠ p) :
    ((fs.filter fun f => !(f.1 = p)).find? fun f => f.1 = q) =
      fs.find? fun f => f.1 = q := by
  apply find?_filter_comm
  intro x hx
  rw [of_decide_eq_true hx]
  simp [h]

theorem fileAt_setFile (st : DestState) (p q : List String) (c : List DocItem) :
    (st.setFile p c).fileAt q = if q = p then some c else st.fileAt q := by
  unfold DestState.setFile DestState.fileAt
  by_cases hq : q = p
  · subst hq
    simp [List.find?_cons]
  · simp only [List.find?_cons, if_neg hq]
    split
    · next h => exact absurd (of_decide_eq_true h).symm hq
    · rw [find?_filter_neq _ _ _ hq]

theorem isDirAt_setFile (st : DestState) (p q : List String) (c : List DocItem) :
    (st.setFile p c).isDirAt q = st.isDirAt q := rfl

theorem fileAt_touch (st : DestState) (p q : List String) :
    (st.touch p).fileAt q =
      if q = p then some ((st.fileAt p).getD []) else st.fileAt q := by
  unfold DestState.touch
  split
  · next h => split <;> simp_all
  · next h => simp [fileAt_setFile, h]

theorem isDirAt_touch (st : DestState) (p q : List String) :
    (st.touch p).isDirAt q = st.isDirAt q := by
  unfold DestState.touch
  split <;> simp [isDirAt_setFile]

theorem fileAt_appendItem (st : DestState) (p q : List String) (it : DocItem) :
    (st.appendItem p it).fileAt q =
      if q = p then some ((st.fileAt p).getD [] ++ [it]) else st.fileAt q := by
  unfold DestState.appendItem
  exact fileAt_setFile ..

theorem isDirAt_appendItem (st : DestState) (p q : List String) (it : DocItem) :
    (st.appendItem p it).isDirAt q = st.isDirAt q := rfl

/-! ### Physical well-formedness of destination states -/

/-- Physically possible destination state: every proper nonempty prefix of
an existing directory or file is itself a directory. -/
def WFStateB (st : DestState) : Bool :=
  st.dirs.all (fun q => (pathPrefixes q).all fun p => st.isDirAt p) &&
  st.files.all (fun f => (pathPrefixes f.1).all fun p => p = f.1 || st.isDirAt p)

theorem WFStateB_iff (st : DestState) :
    WFStateB st = true ↔
      ((∀ q ∈ st.dirs, ∀ p ∈ pathPrefixes q, st.isDirAt p = true) ∧
       (∀ f ∈ st.files, ∀ p ∈ pathPrefixes f.1, p = f.1 ∨ st.isDirAt p = true)) := by
  unfold WFStateB
  simp [List.all_eq_true]

theorem isDirAt_eq_true_iff (st : DestState) (q : List String) :
    st.isDirAt q = true ↔ q ∈ st.dirs := by
  unfold DestState.isDirAt
  simp [List.any_eq_true]

theorem fileAt_isSome_iff (st : DestState) (q : List String) :
    (st.fileAt q).isSome = true ↔ ∃ f ∈ st.files, f.1 = q := by
  unfold DestState.fileAt
  rw [Option.isSome_map', List.find?_isSome]
  simp

/-- In a well-formed state, if nothing exists at `p` then nothing exists
strictly below `p` either. -/
theorem WF_nothing_under {st : DestState} (hwf : WFStateB st = true)
    {p : List String} (hp : p ≠ []) (hnone : st.existsAt p = false) :
    ∀ q, p <+: q → st.fileAt q = none ∧ st.isDirAt q = false := by
  obtain ⟨hd, hf⟩ := (WFStateB_iff st).mp hwf
  have hdp : st.isDirAt p = false := by
    revert hnone
    unfold DestState.existsAt
    intro hnone
    simp only [Bool.or_eq_false_iff] at hnone
    exact hnone.1
  have hfp : (st.fileAt p).isSome = false := by
    revert hnone
    unfold DestState.existsAt
    intro hnone
    simp only [Bool.or_eq_false_iff] at hnone
    exact hnone.2
  intro q hq
  constructor
  · by_cases hqf : (st.fileAt q).isSome = true
    · exfalso
      obtain ⟨f, hfm, rfl⟩ := (fileAt_isSome_iff st q).mp hqf
      rcases eq_or_ne p f.1 with rfl | hne
      · rw [hqf] at hfp
        exact absurd hfp (by simp)
      · have := hf f hfm p (mem_pathPrefixes.mpr ⟨hp, hq⟩)
        rcases this with h | h
        · exact hne h
        · rw [h] at hdp
          exact absurd hdp (by simp)
    · simpa using hqf
  · by_cases hqd : st.isDirAt q = true
    · exfalso
      have hqm := (isDirAt_eq_true_iff st q).mp hqd
      have := hd q hqm p (mem_pathPrefixes.mpr ⟨hp, hq⟩)
      rw [this] at hdp
      exact absurd hdp (by simp)
    · simpa using hqd

/-! ### Path helper lemmas -/

theorem prefix_snoc_iff {r p : List String} {a : String} :
    r <+: p ++ [a] ↔ r <+: p ∨ r = p ++ [a] := by
  constructor
  · rintro ⟨s, hs⟩
    rcases s.eq_nil_or_concat with rfl | ⟨s2, b, rfl⟩
    · right
      simpa using hs
    · left
      rw [List.concat_eq_append, ← List.append_assoc] at hs
      exact ⟨s2, List.append_inj_left' hs rfl⟩
  · rintro (h | rfl)
    · exact h.trans ⟨[a], rfl⟩
    · exact List.prefix_refl _

theorem pathName_snoc (p : List String) (a : String) : pathName (p ++ [a]) = a := by
  simp [pathName]

theorem snoc_inj {p : List String} {a b : String} : p ++ [a] = p ++ [b] ↔ a = b := by
  constructor
  · intro h
    simpa using List.append_inj_right' h rfl
  · rintro rfl
    rfl

theorem snoc_prefix_snoc_iff {p : List String} {a b : String} :
    p ++ [a] <+: p ++ [b] ↔ a = b := by
  constructor
  · intro h
    rcases prefix_snoc_iff.mp h with h2 | h2
    · exfalso
      have := h2.length_le
      simp at this
    · exact snoc_inj.mp h2
  · rintro rfl
    exact List.prefix_refl _

theorem not_snoc_prefix_self {p : List String} {a : String} : ¬(p ++ [a] <+: p) := by
  intro h
  have := h.length_le
  simp at this

theorem mem_pathPrefixes_snoc_of_ne {r p : List String} {a : String}
    (hr : r ∈ pathPrefixes (p ++ [a])) (hne : r ≠ p ++ [a]) : r ∈ pathPrefixes p ∨ r = p := by
  obtain ⟨hr0, hrq⟩ := mem_pathPrefixes.mp hr
  rcases prefix_snoc_iff.mp hrq with h | h
  · rcases eq_or_ne r p with rfl | hrp
    · exact Or.inr rfl
    · exact Or.inl (mem_pathPrefixes.mpr ⟨hr0, h⟩)
  · exact absurd h hne

/-! ### Well-formedness preservation by the state operations -/

theorem isDirAt_mkdirParents_of_mem {st : DestState} {p q : List String}
    (hq : q ∈ pathPrefixes p) : (st.mkdirParents p).isDirAt q = true := by
  rw [isDirAt_mkdirParents]
  simp only [List.any_eq_true, decide_eq_true_eq, Bool.or_eq_true]
  exact Or.inl ⟨q, hq, rfl⟩

theorem isDirAt_mkdirParents_mono {st : DestState} {p q : List String}
    (h : st.isDirAt q = true) : (st.mkdirParents p).isDirAt q = true := by
  rw [isDirAt_mkdirParents]
  simp [h]

theorem WF_rmtree {st : DestState} (h : WFStateB st = true) (p : List String) :
    WFStateB (st.rmtree p) = true := by
  rw [WFStateB_iff] at h ⊢
  obtain ⟨hd, hf⟩ := h
  constructor
  · intro q hq r hr
    have hq2 := List.mem_filter.mp hq
    have hq3 : q ∈ st.dirs := hq2.1
    have hnp : p.isPrefixOf q = false := by simpa using hq2.2
    have hnpP : ¬p <+: q := by
      intro hc
      rw [List.isPrefixOf_iff_prefix.mpr hc] at hnp
      cases hnp
    have hrq := (mem_pathPrefixes.mp hr).2
    have hpr : p.isPrefixOf r = false := by
      rw [Bool.eq_false_iff]
      intro hpr
      exact hnpP ((List.isPrefixOf_iff_prefix.mp hpr).trans hrq)
    rw [isDirAt_rmtree, hd q hq3 r hr, hpr]
    rfl
  · intro f hfm r hr
    have hf2 := List.mem_filter.mp hfm
    have hf3 : f ∈ st.files := hf2.1
    have hnp : p.isPrefixOf f.1 = false := by simpa using hf2.2
    have hnpP : ¬p <+: f.1 := by
      intro hc
      rw [List.isPrefixOf_iff_prefix.mpr hc] at hnp
      cases hnp
    have hrq := (mem_pathPrefixes.mp hr).2
    rcases hf f hf3 r hr with h1 | h1
    · exact Or.inl h1
    · refine Or.inr ?_
      have hpr : p.isPrefixOf r = false := by
        rw [Bool.eq_false_iff]
        intro hpr
        exact hnpP ((List.isPrefixOf_iff_prefix.mp hpr).trans hrq)
      rw [isDirAt_rmtree, h1, hpr]
      rfl

theorem WF_mkdirParents {st : DestState} (h : WFStateB st = true) (p : List String) :
    WFStateB (st.mkdirParents p) = true := by
  rw [WFStateB_iff] at h ⊢
  obtain ⟨hd, hf⟩ := h
  constructor
  · intro q hq r hr
    have hq2 : q ∈ pathPrefixes p ∨ q ∈ st.dirs := by
      simpa [DestState.mkdirParents] using hq
    rcases hq2 with hq2 | hq2
    · obtain ⟨hr0, hrq⟩ := mem_pathPrefixes.mp hr
      obtain ⟨hq0, hqp⟩ := mem_pathPrefixes.mp hq2
      exact isDirAt_mkdirParents_of_mem (mem_pathPrefixes.mpr ⟨hr0, hrq.trans hqp⟩)
    · exact isDirAt_mkdirParents_mono (hd q hq2 r hr)
  · intro f hfm r hr
    have hfm2 : f ∈ st.files := by simpa [DestState.mkdirParents] using hfm
    rcases hf f hfm2 r hr with h1 | h1
    · exact Or.inl h1
    · exact Or.inr (isDirAt_mkdirParents_mono h1)

theorem WF_setFile {st : DestState} (h : WFStateB st = true) {p : List String}
    (hp : ∀ r ∈ pathPrefixes p, r ≠ p → st.isDirAt r = true) (c : List DocItem) :
    WFStateB (st.setFile p c) = true := by
  rw [WFStateB_iff] at h ⊢
  obtain ⟨hd, hf⟩ := h
  constructor
  · intro q hq r hr
    rw [isDirAt_setFile]
    exact hd q hq r hr
  · intro f hfm r hr
    have hfm2 : f = (p, c) ∨ f ∈ st.files := by
      have h0 : f = (p, c) ∨ f ∈ st.files ∧ ¬f.1 = p := by
        simpa [DestState.setFile] using hfm
      rcases h0 with h1 | h1
      · exact Or.inl h1
      · exact Or.inr h1.1
    rw [isDirAt_setFile]
    rcases hfm2 with rfl | hfm2
    · rcases eq_or_ne r p with rfl | hne
      · exact Or.inl rfl
      · exact Or.inr (hp r (by simpa using hr) hne)
    · exact hf f hfm2 r hr

theorem WF_touch {st : DestState} (h : WFStateB st = true) {p : List String}
    (hp : ∀ r ∈ pathPrefixes p, r ≠ p → st.isDirAt r = true) :
    WFStateB (st.touch p) = true := by
  unfold DestState.touch
  split
  · exact h
  · exact WF_setFile h hp _

theorem WF_appendItem {st : DestState} (h : WFStateB st = true) {p : List String}
    (hp : ∀ r ∈ pathPrefixes p, r ≠ p → st.isDirAt r = true) (it : DocItem) :
    WFStateB (st.appendItem p it) = true :=
  WF_setFile h hp _

/-! ### Folded appends to a single document -/

/-- Successive `append_text_to_file` operations on one document. -/
def appendItems (st : DestState) (p : List String) : List DocItem → DestState
  | [] => st
  | it :: rest => appendItems (st.appendItem p it) p rest

theorem isDirAt_appendItems (st : DestState) (p : List String) (its : List DocItem)
    (q : List String) : (appendItems st p its).isDirAt q = st.isDirAt q := by
  induction its generalizing st with
  | nil => rfl
  | cons it rest ih => rw [appendItems, ih, isDirAt_appendItem]

theorem fileAt_appendItems {st : DestState} {p : List String}
    (h : (st.fileAt p).isSome = true) (q : List String) (its : List DocItem) :
    (appendItems st p its).fileAt q =
      if q = p then some ((st.fileAt p).getD [] ++ its) else st.fileAt q := by
  induction its generalizing st with
  | nil =>
    simp only [appendItems, List.append_nil]
    split
    · next hqp =>
      subst hqp
      obtain ⟨v, hv⟩ := Option.isSome_iff_exists.mp h
      simp [hv]
    · rfl
  | cons it rest ih =>
    rw [appendItems]
    have h2 : ((st.appendItem p it).fileAt p).isSome = true := by
      rw [fileAt_appendItem]
      simp
    rw [ih h2]
    rw [fileAt_appendItem, fileAt_appendItem]
    split
    · simp
    · rfl

theorem WF_appendItems {st : DestState} (h : WFStateB st = true) {p : List String}
    (hp : ∀ r ∈ pathPrefixes p, r ≠ p → st.isDirAt r = true) (its : List DocItem) :
    WFStateB (appendItems st p its) = true := by
  induction its generalizing st with
  | nil => exact h
  | cons it rest ih =>
    rw [appendItems]
    refine ih (WF_appendItem h hp it) ?_
    intro r hr hne
    rw [isDirAt_appendItem]
    exact hp r hr hne

/-! ### Characterization of the straight-line loops -/

/-- Rows of the files table: one per non-failing file, in bucket order. -/
def fileRowsOf (files : List (Entry × FSTree)) : List DocItem :=
  (files.filter fun e => !e.1.procFails).map fun e => DocItem.fileRow e.1.name e.1.size

/-- Rows of the symlinks table: one per non-failing symlink, in bucket order. -/
def symlinkRowsOf (ls : List (Entry × FSTree)) : List DocItem :=
  (ls.filter fun e => !e.1.procFails).map
    fun e => DocItem.symlinkRow e.1.name e.1.resolvedName

/-- The trace of the files loop. -/
def filesTraceOf (outFile : List String) : List (Entry × FSTree) → List Action
  | [] => []
  | (e, _) :: rest =>
    (if e.procFails then Action.logErrorAct e.name
     else Action.appendDocAct outFile (DocItem.fileRow e.name e.size)) ::
      filesTraceOf outFile rest

/-- The trace of the symlinks loop. -/
def symlinksTraceOf (outFile : List String) : List (Entry × FSTree) → List Action
  | [] => []
  | (e, _) :: rest =>
    (if e.procFails then Action.logErrorAct e.name
     else Action.appendDocAct outFile (DocItem.symlinkRow e.name e.resolvedName)) ::
      symlinksTraceOf outFile rest

theorem processFiles_spec (files : List (Entry × FSTree)) (outFile : List String)
    (st : DestState) :
    processFiles files outFile st =
      ⟨filesRet files, false, appendItems st outFile (fileRowsOf files),
        filesTraceOf outFile files⟩ := by
  induction files generalizing st with
  | nil => rfl
  | cons e rest ih =>
    obtain ⟨e, tsub⟩ := e
    cases hf : e.procFails with
    | true =>
      rw [processFiles, if_pos hf, ih]
      simp [filesRet, fileRowsOf, filesTraceOf, hf, List.filter_cons]
    | false =>
      rw [processFiles, if_neg (by simp [hf]), ih]
      simp [filesRet, fileRowsOf, filesTraceOf, hf, List.filter_cons, appendItems]

theorem processSymlinks_spec (ls : List (Entry × FSTree)) (outFile : List String)
    (st : DestState) :
    processSymlinks ls outFile st =
      ⟨0, false, appendItems st outFile (symlinkRowsOf ls), symlinksTraceOf outFile ls⟩ := by
  induction ls generalizing st with
  | nil => rfl
  | cons e rest ih =>
    obtain ⟨e, tsub⟩ := e
    cases hf : e.procFails with
    | true =>
      rw [processSymlinks, if_pos hf, ih]
      simp [symlinkRowsOf, symlinksTraceOf, hf, List.filter_cons]
    | false =>
      rw [processSymlinks, if_neg (by simp [hf]), ih]
      simp [symlinkRowsOf, symlinksTraceOf, hf, List.filter_cons, appendItems]

/-! ### The pure recursive total and document -/

theorem dec_size_to_dirs (c : List (Entry × FSTree)) (d : Int) :
    3 * sizeList (effectiveDirs (categorize (sortContents c)).2.2 d) + 1 <
      3 * FSTree.size (FSTree.node (some c)) :=
  lt_trans (dec_body_to_dirs c d) (dec_get_to_body _)

mutual
/-- The recursive total that `get_snapshot` computes and returns, as a pure
function of the observed listing tree: the sizes of the non-failing files
plus the totals of the recursed subdirectories, `-1` at the destination
root, `0` for an unlistable directory. -/
def snapSize (t : FSTree) (src_path dest_path_root : List String) (d : Int) : Int :=
  if src_path = dest_path_root then -1
  else
    match t with
    | .node none => 0
    | .node (some contents) =>
      let cats := categorize (sortContents contents)
      filesRet cats.2.1 + dirsSize (effectiveDirs cats.2.2 d) src_path dest_path_root d
termination_by 3 * FSTree.size t
decreasing_by
  exact dec_size_to_dirs _ _

/-- The total contributed by the directories loop: each child that neither
fails nor collides with the report file name contributes its recursive
total at depth `d - 1`. -/
def dirsSize (ds : List (Entry × FSTree)) (src_path dest_path_root : List String) (d : Int) :
    Int :=
  match ds with
  | [] => 0
  | (e, sub) :: rest =>
    (if e.procFails || collides e (pathName src_path) then 0
     else snapSize sub (src_path ++ [e.name]) dest_path_root (d - 1)) +
      dirsSize rest src_path dest_path_root d
termination_by 3 * sizeList ds + 1
decreasing_by
  all_goals first
    | exact dec_dirs_to_get _ _ _
    | exact dec_dirs_to_rest _ _ _
end

/-- Rows of the directories table: one per child that neither fails nor
collides, labelled with its recursive total at depth `d - 1`. -/
def dirRowsOf (ds : List (Entry × FSTree)) (src_path dest_path_root : List String) (d : Int) :
    List DocItem :=
  (ds.filter fun e => !e.1.procFails && !collides e.1 (pathName src_path)).map
    fun e => DocItem.dirRow e.1.name (snapSize e.2 (src_path ++ [e.1.name]) dest_path_root (d - 1))

/-- The document written for a listable directory that is not the
destination root. -/
def docOfListing (contents : List (Entry × FSTree)) (src_path dest_path_root : List String)
    (ignore_symlinks : Bool) (d : Int) : List DocItem :=
  let cats := categorize (sortContents contents)
  [DocItem.htmlHeader (pathName src_path), DocItem.filesTableHeader] ++
  (if cats.2.1.isEmpty then [DocItem.noFiles] else fileRowsOf cats.2.1) ++
  [DocItem.tableClose, DocItem.dirsTableHeader] ++
  (if cats.2.2.isEmpty then [DocItem.noSubdirs]
   else if d = 0 then [DocItem.depthLimitReached]
   else dirRowsOf cats.2.2 src_path dest_path_root d) ++
  [DocItem.tableClose] ++
  (if ignore_symlinks then []
   else [DocItem.symlinksTableHeader] ++
     (if cats.1.isEmpty then [DocItem.noSymlinks] else symlinkRowsOf cats.1) ++
     [DocItem.tableClose]) ++
  [DocItem.tableFooter (snapSize (FSTree.node (some contents)) src_path dest_path_root d)]

/-- The final content of the report document of one `get_snapshot` call. -/
def docOf (t : FSTree) (src_path dest_path_root : List String) (ignore_symlinks : Bool)
    (d : Int) : List DocItem :=
  if src_path = dest_path_root then [DocItem.selfRefMarker]
  else
    match t with
    | .node none => []
    | .node (some contents) => docOfListing contents src_path dest_path_root ignore_symlinks d

/-! ### The classification buckets as filters -/

theorem categorize_symlinks (l : List (Entry × FSTree)) :
    (categorize l).1 = l.filter fun e => !e.1.is_dir && e.1.is_symlink := by
  induction l with
  | nil => rfl
  | cons e rest ih =>
    simp only [categorize, List.filter_cons]
    cases hd : e.1.is_dir <;> cases hs : e.1.is_symlink <;> simp [hd, hs, ih]

theorem categorize_files (l : List (Entry × FSTree)) :
    (categorize l).2.1 = l.filter fun e => !e.1.is_dir && !e.1.is_symlink := by
  induction l with
  | nil => rfl
  | cons e rest ih =>
    simp only [categorize, List.filter_cons]
    cases hd : e.1.is_dir <;> cases hs : e.1.is_symlink <;> simp [hd, hs, ih]

theorem categorize_dirs (l : List (Entry × FSTree)) :
    (categorize l).2.2 = l.filter fun e => e.1.is_dir := by
  induction l with
  | nil => rfl
  | cons e rest ih =>
    simp only [categorize, List.filter_cons]
    cases hd : e.1.is_dir <;> cases hs : e.1.is_symlink <;> simp [hd, hs, ih]

/-! ### Well-formed listing trees (distinct sibling names) -/

mutual
/-- A listing tree is well formed when sibling names are distinct at every
level, as they are in a real directory tree. -/
def FSTree.wfB : FSTree → Bool
  | .node none => true
  | .node (some l) => decide ((l.map fun e => e.1.name).Nodup) && wfListB l
/-- All subtrees of the list are well formed. -/
def wfListB : List (Entry × FSTree) → Bool
  | [] => true
  | (_, t) :: r => FSTree.wfB t && wfListB r
end

theorem wfListB_iff (l : List (Entry × FSTree)) :
    wfListB l = true ↔ ∀ p ∈ l, FSTree.wfB p.2 = true := by
  induction l with
  | nil => simp [wfListB]
  | cons e rest ih =>
    obtain ⟨a, t⟩ := e
    simp [wfListB, ih]

theorem wfB_node_some {l : List (Entry × FSTree)}
    (h : FSTree.wfB (FSTree.node (some l)) = true) :
    (l.map fun e => e.1.name).Nodup ∧ ∀ p ∈ l, FSTree.wfB p.2 = true := by
  rw [FSTree.wfB, Bool.and_eq_true, decide_eq_true_eq] at h
  exact ⟨h.1, (wfListB_iff l).mp h.2⟩

theorem mem_sortContents {p : Entry × FSTree} {l : List (Entry × FSTree)} :
    p ∈ sortContents l ↔ p ∈ l := by
  unfold sortContents
  exact List.mem_insertionSort _

theorem names_nodup_sortContents {l : List (Entry × FSTree)}
    (h : (l.map fun e => e.1.name).Nodup) :
    ((sortContents l).map fun e => e.1.name).Nodup := by
  have hperm : (sortContents l).Perm l := List.perm_insertionSort _ l
  exact ((hperm.map fun e => e.1.name).nodup_iff).mpr h

theorem names_nodup_filter {l : List (Entry × FSTree)} (P : Entry × FSTree → Bool)
    (h : (l.map fun e => e.1.name).Nodup) :
    ((l.filter P).map fun e => e.1.name).Nodup :=
  ((l.filter_sublist).map fun e => e.1.name).nodup h

/-- From well-formedness and the presence of a file, all proper prefixes of
the file path are directories. -/
theorem dirs_of_file {st : DestState} (hwf : WFStateB st = true) {o : List String}
    (hof : (st.fileAt o).isSome = true) :
    ∀ r ∈ pathPrefixes o, r ≠ o → st.isDirAt r = true := by
  obtain ⟨f, hfm, hfo⟩ := (fileAt_isSome_iff st o).mp hof
  intro r hr hne
  rcases (WFStateB_iff st).mp hwf |>.2 f hfm r (by rw [hfo]; exact hr) with h | h
  · rw [hfo] at h
    exact absurd h hne
  · exact h

/-! ### Postconditions of the traversal -/

/-- What one `get_snapshot` call (or its body, after the reset) guarantees:
it completes without raising, returns the pure recursive total, leaves the
report document at its final content, touches no file outside its mirror
subtree, preserves ancestor directories, and preserves physical
well-formedness. -/
abbrev SnapPost (t : FSTree) (src_path dest_path dest_path_root : List String)
    (ignore_symlinks : Bool) (d : Int) (st : DestState) (r : SnapRes) : Prop :=
  r.raised = false ∧
  r.ret = snapSize t src_path dest_path_root d ∧
  r.st.fileAt (dest_path ++ [pathName src_path] ++ [pathName src_path ++ ".html"]) =
    some (docOf t src_path dest_path_root ignore_symlinks d) ∧
  (∀ q, ¬((dest_path ++ [pathName src_path]) <+: q) → r.st.fileAt q = st.fileAt q) ∧
  (∀ q, q <+: dest_path ++ [pathName src_path] → st.isDirAt q = true →
    r.st.isDirAt q = true) ∧
  WFStateB r.st = true

/-- What the directories loop guarantees. -/
abbrev DirsPost (ds : List (Entry × FSTree)) (src_path dest_path dest_path_root : List String)
    (d : Int) (st : DestState) (r : SnapRes) : Prop :=
  r.raised = false ∧
  r.ret = dirsSize ds src_path dest_path_root d ∧
  r.st.fileAt (dest_path ++ [pathName src_path] ++ [pathName src_path ++ ".html"]) =
    some ((st.fileAt (dest_path ++ [pathName src_path] ++
      [pathName src_path ++ ".html"])).getD [] ++
      dirRowsOf ds src_path dest_path_root d) ∧
  (∀ q, (∀ p ∈ ds, ¬((dest_path ++ [pathName src_path] ++ [p.1.name]) <+: q)) →
    q ≠ dest_path ++ [pathName src_path] ++ [pathName src_path ++ ".html"] →
    r.st.fileAt q = st.fileAt q) ∧
  (∀ q, q <+: dest_path ++ [pathName src_path] → st.isDirAt q = true →
    r.st.isDirAt q = true) ∧
  WFStateB r.st = true

/-! ### The level reset -/

theorem resetLevel_st (st : DestState) (pwd outFile : List String) :
    (resetLevel st pwd outFile).1 =
      ((if st.existsAt pwd then st.rmtree pwd else st).mkdirParents pwd).touch outFile := by
  unfold resetLevel
  split <;> rfl

theorem resetLevel_tr (st : DestState) (pwd outFile : List String) :
    (resetLevel st pwd outFile).2 =
      (if st.existsAt pwd then [Action.rmtreeAct pwd] else []) ++
        [Action.mkdirAct pwd, Action.touchAct outFile] := by
  unfold resetLevel
  split <;> simp_all

theorem resetLevel_fileAt {st : DestState} (hwf : WFStateB st = true)
    {p : List String} (hp : p ≠ []) (x : String) (q : List String) :
    (resetLevel st p (p ++ [x])).1.fileAt q =
      if q = p ++ [x] then some [] else if p <+: q then none else st.fileAt q := by
  rw [resetLevel_st]
  cases hex : st.existsAt p with
  | true =>
    rw [if_pos rfl, fileAt_touch, fileAt_mkdirParents, fileAt_mkdirParents, fileAt_rmtree,
      fileAt_rmtree]
    have hpo : p.isPrefixOf (p ++ [x]) = true := by
      rw [List.isPrefixOf_iff_prefix]
      exact ⟨[x], rfl⟩
    rw [if_pos hpo]
    split
    · rfl
    · split
      · next h2 => rw [if_pos (List.isPrefixOf_iff_prefix.mp h2)]
      · next h2 =>
        rw [if_neg (fun hc => h2 (List.isPrefixOf_iff_prefix.mpr hc))]
  | false =>
    rw [if_neg (by simp), fileAt_touch, fileAt_mkdirParents, fileAt_mkdirParents]
    have hnu := WF_nothing_under hwf hp hex
    have hno : st.fileAt (p ++ [x]) = none := (hnu (p ++ [x]) ⟨[x], rfl⟩).1
    rw [hno]
    split
    · rfl
    · split
      · next h2 => exact (hnu q h2).1
      · rfl

theorem resetLevel_isDirAt {st : DestState} (hwf : WFStateB st = true)
    {p : List String} (hp : p ≠ []) (x : String) (q : List String) :
    (resetLevel st p (p ++ [x])).1.isDirAt q =
      if q ∈ pathPrefixes p then true else if p <+: q then false else st.isDirAt q := by
  rw [resetLevel_st]
  cases hex : st.existsAt p with
  | true =>
    rw [if_pos rfl, isDirAt_touch, isDirAt_mkdirParents, isDirAt_rmtree]
    by_cases hq : q ∈ pathPrefixes p
    · rw [if_pos hq]
      simp only [List.any_eq_true, decide_eq_true_eq, Bool.or_eq_true]
      exact Or.inl ⟨q, hq, rfl⟩
    · rw [if_neg hq]
      have hany : ((pathPrefixes p).any fun r => r = q) = false := by
        rw [List.any_eq_false]
        intro r hr
        simp only [decide_eq_true_eq]
        rintro rfl
        exact hq hr
      rw [hany]
      split
      · next h2 => simp [List.isPrefixOf_iff_prefix.mpr h2]
      · next h2 =>
        have h3 : p.isPrefixOf q = false := by
          rw [Bool.eq_false_iff]
          intro hc
          exact h2 (List.isPrefixOf_iff_prefix.mp hc)
        simp [h3]
  | false =>
    rw [if_neg (by simp), isDirAt_touch, isDirAt_mkdirParents]
    have hnu := WF_nothing_under hwf hp hex
    by_cases hq : q ∈ pathPrefixes p
    · rw [if_pos hq]
      simp only [List.any_eq_true, decide_eq_true_eq, Bool.or_eq_true]
      exact Or.inl ⟨q, hq, rfl⟩
    · rw [if_neg hq]
      have hany : ((pathPrefixes p).any fun r => r = q) = false := by
        rw [List.any_eq_false]
        intro r hr
        simp only [decide_eq_true_eq]
        rintro rfl
        exact hq hr
      rw [hany]
      split
      · next h2 => simp [(hnu q h2).2]
      · rfl

theorem resetLevel_WF {st : DestState} (hwf : WFStateB st = true)
    {p : List String} (x : String) :
    WFStateB (resetLevel st p (p ++ [x])).1 = true := by
  rw [resetLevel_st]
  have hbase : WFStateB (if st.existsAt p then st.rmtree p else st) = true := by
    split
    · exact WF_rmtree hwf p
    · exact hwf
  refine WF_touch (WF_mkdirParents hbase p) ?_
  intro r hr hne
  rcases mem_pathPrefixes_snoc_of_ne hr hne with h | rfl
  · exact isDirAt_mkdirParents_of_mem h
  · exact isDirAt_mkdirParents_of_mem
      (mem_pathPrefixes.mpr ⟨(mem_pathPrefixes.mp hr).1, List.prefix_refl _⟩)

mutual
/-- `get_snapshot` (lines 44-133): reset the mirror level, then run the
body.  When a regular file sits at `pwd`, `shutil.rmtree(pwd)` (or the
subsequent `mkdir`) raises before any destination change, modelled by the
`raised` result. -/
def get_snapshot (t : FSTree) (src_path dest_path dest_path_root : List String)
    (ignore_symlinks : Bool) (max_rec_depth : Int) (st : DestState) : SnapRes :=
  let pwd := dest_path ++ [pathName src_path]
  if (st.fileAt pwd).isSome then ⟨0, true, st, []⟩
  else
    let out_file_path := pwd ++ [pathName src_path ++ ".html"]
    let reset := resetLevel st pwd out_file_path
    let r := snapshotBody t src_path dest_path dest_path_root ignore_symlinks max_rec_depth
      reset.1
    ⟨r.ret, false, r.st, reset.2 ++ r.tr⟩
termination_by 3 * FSTree.size t
decreasing_by
  exact dec_get_to_body t

/-- Lines 57-133 of `get_snapshot`: self-reference guard, unlistable check,
sort, classification, the four document sections, and the footer. -/
def snapshotBody (t : FSTree) (src_path dest_path dest_path_root : List String)
    (ignore_symlinks : Bool) (max_rec_depth : Int) (st : DestState) : SnapRes :=
  let pwd := dest_path ++ [pathName src_path]
  let out_file_path := pwd ++ [pathName src_path ++ ".html"]
  if src_path = dest_path_root then
    ⟨-1, false, st.setFile out_file_path [DocItem.selfRefMarker],
      [Action.writeDocAct out_file_path DocItem.selfRefMarker]⟩
  else
    match t with
    | .node none => ⟨0, false, st, []⟩
    | .node (some contents) =>
      let cats := categorize (sortContents contents)
      let symlinks := cats.1
      let files := cats.2.1
      let dirs := cats.2.2
      let st1 := st.setFile out_file_path [DocItem.htmlHeader (pathName src_path)]
      let tr1 := [Action.writeDocAct out_file_path (DocItem.htmlHeader (pathName src_path))]
      let st2 := st1.appendItem out_file_path DocItem.filesTableHeader
      let tr2 := tr1 ++ [Action.appendDocAct out_file_path DocItem.filesTableHeader]
      let st3 := if files.isEmpty then st2.appendItem out_file_path DocItem.noFiles else st2
      let tr3 := if files.isEmpty then
          tr2 ++ [Action.appendDocAct out_file_path DocItem.noFiles] else tr2
      let rF := processFiles files out_file_path st3
      let st4 := rF.st.appendItem out_file_path DocItem.tableClose
      let tr4 := tr3 ++ rF.tr ++ [Action.appendDocAct out_file_path DocItem.tableClose]
      let st5 := st4.appendItem out_file_path DocItem.dirsTableHeader
      let tr5 := tr4 ++ [Action.appendDocAct out_file_path DocItem.dirsTableHeader]
      let st6 := if dirs.isEmpty then st5.appendItem out_file_path DocItem.noSubdirs
        else if max_rec_depth = 0 then st5.appendItem out_file_path DocItem.depthLimitReached
        else st5
      let tr6 := if dirs.isEmpty then tr5 ++ [Action.appendDocAct out_file_path DocItem.noSubdirs]
        else if max_rec_depth = 0 then
          tr5 ++ [Action.appendDocAct out_file_path DocItem.depthLimitReached]
        else tr5
      let dirs2 := effectiveDirs dirs max_rec_depth
      let rD := processDirs dirs2 src_path dest_path dest_path_root ignore_symlinks
        max_rec_depth st6
      let st7 := rD.st.appendItem out_file_path DocItem.tableClose
      let tr7 := tr6 ++ rD.tr ++ [Action.appendDocAct out_file_path DocItem.tableClose]
      let rS := if ignore_symlinks then (⟨0, false, st7, []⟩ : SnapRes)
        else
          let s1 := st7.appendItem out_file_path DocItem.symlinksTableHeader
          let u1 := [Action.appendDocAct out_file_path DocItem.symlinksTableHeader]
          let s2 := if symlinks.isEmpty then s1.appendItem out_file_path DocItem.noSymlinks else s1
          let u2 := if symlinks.isEmpty then
              u1 ++ [Action.appendDocAct out_file_path DocItem.noSymlinks] else u1
          let rr := processSymlinks symlinks out_file_path s2
          ⟨0, false, rr.st.appendItem out_file_path DocItem.tableClose,
            u2 ++ rr.tr ++ [Action.appendDocAct out_file_path DocItem.tableClose]⟩
      let total := rF.ret + rD.ret
      ⟨total, false, rS.st.appendItem out_file_path (DocItem.tableFooter total),
        tr7 ++ rS.tr ++ [Action.appendDocAct out_file_path (DocItem.tableFooter total)]⟩
termination_by 3 * FSTree.size t - 1
decreasing_by
  exact dec_body_to_dirs _ _

/-- The directories loop (lines 104-112): recurse into each child with
`max_rec_depth - 1`, add the returned size to the running total, then write
the child's directory row; a raising child (its own raise, or the
`procFails` oracle) is caught, logged, and skipped. -/
def processDirs (ds : List (Entry × FSTree)) (src_path dest_path dest_path_root : List String)
    (ignore_symlinks : Bool) (max_rec_depth : Int) (st : DestState) : SnapRes :=
  let pwd := dest_path ++ [pathName src_path]
  let out_file_path := pwd ++ [pathName src_path ++ ".html"]
  match ds with
  | [] => ⟨0, false, st, []⟩
  | (e, sub) :: rest =>
    if e.procFails then
      let r := processDirs rest src_path dest_path dest_path_root ignore_symlinks
        max_rec_depth st
      ⟨r.ret, false, r.st, Action.logErrorAct e.name :: r.tr⟩
    else
      let rc := get_snapshot sub (src_path ++ [e.name]) pwd dest_path_root ignore_symlinks
        (max_rec_depth - 1) st
      if rc.raised then
        let r := processDirs rest src_path dest_path dest_path_root ignore_symlinks
          max_rec_depth rc.st
        ⟨r.ret, false, r.st, rc.tr ++ Action.logErrorAct e.name :: r.tr⟩
      else
        let stRow := rc.st.appendItem out_file_path (DocItem.dirRow e.name rc.ret)
        let r := processDirs rest src_path dest_path dest_path_root ignore_symlinks
          max_rec_depth stRow
        ⟨rc.ret + r.ret, false, r.st,
          rc.tr ++ Action.appendDocAct out_file_path (DocItem.dirRow e.name rc.ret) :: r.tr⟩
termination_by 3 * sizeList ds + 1
decreasing_by
  all_goals first
    | exact dec_dirs_to_get _ _ _
    | exact dec_dirs_to_rest _ _ _
end

/-! ### Unfolding helpers for the pure functions -/

theorem snapSize_guard {src_path dest_path_root : List String}
    (h : src_path = dest_path_root) (t : FSTree) (d : Int) :
    snapSize t src_path dest_path_root d = -1 := by
  cases t with
  | node o =>
    cases o with
    | none => rw [snapSize, if_pos h]
    | some l => rw [snapSize, if_pos h]

theorem snapSize_none {src_path dest_path_root : List String}
    (h : ¬src_path = dest_path_root) (d : Int) :
    snapSize (FSTree.node none) src_path dest_path_root d = 0 := by
  rw [snapSize, if_neg h]

theorem snapSize_some {src_path dest_path_root : List String}
    (h : ¬src_path = dest_path_root) (contents : List (Entry × FSTree)) (d : Int) :
    snapSize (FSTree.node (some contents)) src_path dest_path_root d =
      filesRet (categorize (sortContents contents)).2.1 +
        dirsSize (effectiveDirs (categorize (sortContents contents)).2.2 d)
          src_path dest_path_root d := by
  rw [snapSize, if_neg h]

theorem docOf_guard {src_path dest_path_root : List String}
    (h : src_path = dest_path_root) (t : FSTree) (isl : Bool) (d : Int) :
    docOf t src_path dest_path_root isl d = [DocItem.selfRefMarker] := by
  unfold docOf
  rw [if_pos h]

theorem docOf_none {src_path dest_path_root : List String}
    (h : ¬src_path = dest_path_root) (isl : Bool) (d : Int) :
    docOf (FSTree.node none) src_path dest_path_root isl d = [] := by
  unfold docOf
  rw [if_neg h]

theorem docOf_some {src_path dest_path_root : List String}
    (h : ¬src_path = dest_path_root) (contents : List (Entry × FSTree)) (isl : Bool)
    (d : Int) :
    docOf (FSTree.node (some contents)) src_path dest_path_root isl d =
      docOfListing contents src_path dest_path_root isl d := by
  unfold docOf
  rw [if_neg h]

theorem docOfListing_eq (contents : List (Entry × FSTree))
    (src_path dest_path_root : List String) (isl : Bool) (d : Int) :
    docOfListing contents src_path dest_path_root isl d =
      [DocItem.htmlHeader (pathName src_path), DocItem.filesTableHeader] ++
      (if (categorize (sortContents contents)).2.1.isEmpty = true then [DocItem.noFiles]
       else fileRowsOf (categorize (sortContents contents)).2.1) ++
      [DocItem.tableClose, DocItem.dirsTableHeader] ++
      (if (categorize (sortContents contents)).2.2.isEmpty = true then [DocItem.noSubdirs]
       else if d = 0 then [DocItem.depthLimitReached]
       else dirRowsOf (categorize (sortContents contents)).2.2 src_path dest_path_root d) ++
      [DocItem.tableClose] ++
      (if isl = true then []
       else [DocItem.symlinksTableHeader] ++
         (if (categorize (sortContents contents)).1.isEmpty = true then [DocItem.noSymlinks]
          else symlinkRowsOf (categorize (sortContents contents)).1) ++
         [DocItem.tableClose]) ++
      [DocItem.tableFooter
        (snapSize (FSTree.node (some contents)) src_path dest_path_root d)] := rfl

theorem fileRowsOf_nil : fileRowsOf [] = [] := rfl

theorem symlinkRowsOf_nil : symlinkRowsOf [] = [] := rfl

theorem dirRowsOf_nil (src_path dest_path_root : List String) (d : Int) :
    dirRowsOf [] src_path dest_path_root d = [] := rfl

theorem effectiveDirs_of_isEmpty {dirs : List (Entry × FSTree)} {d : Int}
    (h : dirs.isEmpty = true) : effectiveDirs dirs d = dirs := by
  unfold effectiveDirs
  rw [if_pos h]

theorem effectiveDirs_of_zero {dirs : List (Entry × FSTree)} {d : Int}
    (h : ¬dirs.isEmpty = true) (hd : d = 0) : effectiveDirs dirs d = [] := by
  unfold effectiveDirs
  rw [if_neg h, if_pos hd]

theorem effectiveDirs_of_pos {dirs : List (Entry × FSTree)} {d : Int}
    (h : ¬dirs.isEmpty = true) (hd : ¬d = 0) : effectiveDirs dirs d = dirs := by
  unfold effectiveDirs
  rw [if_neg h, if_neg hd]

theorem mem_effectiveDirs {p : Entry × FSTree} {dirs : List (Entry × FSTree)} {d : Int}
    (h : p ∈ effectiveDirs dirs d) : p ∈ dirs := by
  unfold effectiveDirs at h
  split_ifs at h
  · exact h
  · cases h
  · exact h

theorem names_nodup_effectiveDirs {dirs : List (Entry × FSTree)} {d : Int}
    (h : (dirs.map fun p => p.1.name).Nodup) :
    ((effectiveDirs dirs d).map fun p => p.1.name).Nodup := by
  unfold effectiveDirs
  split_ifs
  · exact h
  · simp
  · exact h

/-! ### Pointwise agreement of two destination states -/

/-- Two destination states agree at path `q`. -/
def agreeAt (q : List String) (s₁ s₂ : DestState) : Prop :=
  s₁.fileAt q = s₂.fileAt q ∧ s₁.isDirAt q = s₂.isDirAt q

theorem agreeAt_setFile {s₁ s₂ : DestState} (p : List String) (c : List DocItem)
    (q : List String) (h : agreeAt q s₁ s₂) : agreeAt q (s₁.setFile p c) (s₂.setFile p c) := by
  refine ⟨?_, ?_⟩
  · rw [fileAt_setFile, fileAt_setFile]
    split
    · rfl
    · exact h.1
  · rw [isDirAt_setFile, isDirAt_setFile]
    exact h.2

theorem agreeAt_appendItem {s₁ s₂ : DestState} (p : List String) (it : DocItem)
    (hp : agreeAt p s₁ s₂) (q : List String) (h : agreeAt q s₁ s₂) :
    agreeAt q (s₁.appendItem p it) (s₂.appendItem p it) := by
  refine ⟨?_, ?_⟩
  · rw [fileAt_appendItem, fileAt_appendItem]
    split
    · rw [hp.1]
    · exact h.1
  · rw [isDirAt_appendItem, isDirAt_appendItem]
    exact h.2

theorem agreeAt_appendItems {s₁ s₂ : DestState} (p : List String) (its : List DocItem)
    (hp : agreeAt p s₁ s₂) (q : List String) (h : agreeAt q s₁ s₂) :
    agreeAt q (appendItems s₁ p its) (appendItems s₂ p its) := by
  induction its generalizing s₁ s₂ with
  | nil => exact h
  | cons it rest ih =>
    exact ih (agreeAt_appendItem p it hp p hp) (agreeAt_appendItem p it hp q h)

theorem agreeAt_touch {s₁ s₂ : DestState} (p : List String) (hp : agreeAt p s₁ s₂)
    (q : List String) (h : agreeAt q s₁ s₂) : agreeAt q (s₁.touch p) (s₂.touch p) := by
  refine ⟨?_, ?_⟩
  · rw [fileAt_touch, fileAt_touch]
    split
    · rw [hp.1]
    · exact h.1
  · rw [isDirAt_touch, isDirAt_touch]
    exact h.2

theorem agreeAt_rmtree {s₁ s₂ : DestState} (p : List String) (q : List String)
    (h : agreeAt q s₁ s₂) : agreeAt q (s₁.rmtree p) (s₂.rmtree p) := by
  refine ⟨?_, ?_⟩
  · rw [fileAt_rmtree, fileAt_rmtree]
    split
    · rfl
    · exact h.1
  · rw [isDirAt_rmtree, isDirAt_rmtree, h.2]

theorem agreeAt_mkdirParents {s₁ s₂ : DestState} (p : List String) (q : List String)
    (h : agreeAt q s₁ s₂) : agreeAt q (s₁.mkdirParents p) (s₂.mkdirParents p) := by
  refine ⟨?_, ?_⟩
  · rw [fileAt_mkdirParents, fileAt_mkdirParents]
    exact h.1
  · rw [isDirAt_mkdirParents, isDirAt_mkdirParents, h.2]

/-- The level reset behaves identically on states that agree at the mirror
directory and report file paths. -/
theorem resetLevel_agree {s₁ s₂ : DestState} {p o : List String}
    (hp : agreeAt p s₁ s₂) (ho : agreeAt o s₁ s₂) :
    (resetLevel s₁ p o).2 = (resetLevel s₂ p o).2 ∧
    ∀ q, agreeAt q s₁ s₂ → agreeAt q (resetLevel s₁ p o).1 (resetLevel s₂ p o).1 := by
  have hex : s₁.existsAt p = s₂.existsAt p := by
    unfold DestState.existsAt
    rw [hp.1, hp.2]
  refine ⟨?_, ?_⟩
  · rw [resetLevel_tr, resetLevel_tr, hex]
  · intro q h
    rw [resetLevel_st, resetLevel_st, hex]
    by_cases hc : s₂.existsAt p = true
    · rw [if_pos hc, if_pos hc]
      exact agreeAt_touch o (agreeAt_mkdirParents p o (agreeAt_rmtree p o ho)) q
        (agreeAt_mkdirParents p q (agreeAt_rmtree p q h))
    · rw [if_neg hc, if_neg hc]
      exact agreeAt_touch o (agreeAt_mkdirParents p o ho) q (agreeAt_mkdirParents p q h)

/-! ### The main characterization of the traversal -/

set_option maxHeartbeats 1600000 in
mutual
/-- A call on a well-formed destination without a file at its mirror path
completes and satisfies `SnapPost`. -/
theorem get_snapshot_spec (t : FSTree) (src_path dest_path dest_path_root : List String)
    (isl : Bool) (d : Int) (st : DestState)
    (hwf : WFStateB st = true) (htwf : FSTree.wfB t = true)
    (hnone : st.fileAt (dest_path ++ [pathName src_path]) = none) :
    SnapPost t src_path dest_path dest_path_root isl d st
      (get_snapshot t src_path dest_path dest_path_root isl d st) := by
  have hpwdne : dest_path ++ [pathName src_path] ≠ [] := by simp
  have h1 := resetLevel_fileAt hwf hpwdne (pathName src_path ++ ".html")
  have h2 := resetLevel_isDirAt hwf hpwdne (pathName src_path ++ ".html")
  have h4 : WFStateB (resetLevel st (dest_path ++ [pathName src_path])
      (dest_path ++ [pathName src_path] ++ [pathName src_path ++ ".html"])).1 = true :=
    resetLevel_WF hwf _
  obtain ⟨hbr, hbret, hbdoc, hbfp, hbD, hbwf⟩ :=
    snapshotBody_spec t src_path dest_path dest_path_root isl d _ h4 htwf
      (by rw [h1]; simp)
      (by
        intro q hq hne
        rw [h1, if_neg hne, if_pos hq])
      (by
        intro r hr
        rw [h2, if_pos hr])
  simp only [get_snapshot, hnone, Option.isSome_none, Bool.false_eq_true, if_false]
  refine ⟨rfl, hbret, hbdoc, fun q hq => ?_, fun q hq hdir => ?_, hbwf⟩
  · show (snapshotBody t src_path dest_path dest_path_root isl d
        (resetLevel st (dest_path ++ [pathName src_path])
          (dest_path ++ [pathName src_path] ++ [pathName src_path ++ ".html"])).1).st.fileAt
        q = st.fileAt q
    have hqo : q ≠ dest_path ++ [pathName src_path] ++ [pathName src_path ++ ".html"] := by
      rintro rfl
      exact hq ⟨[pathName src_path ++ ".html"], rfl⟩
    rw [hbfp q hq, h1, if_neg hqo, if_neg hq]
  · show (snapshotBody t src_path dest_path dest_path_root isl d
        (resetLevel st (dest_path ++ [pathName src_path])
          (dest_path ++ [pathName src_path] ++ [pathName src_path ++ ".html"])).1).st.isDirAt
        q = true
    refine hbD q hq ?_
    rw [h2]
    rcases eq_or_ne q [] with rfl | hq0
    · rw [if_neg (by
          intro hc
          exact absurd (mem_pathPrefixes.mp hc).1 (by simp)),
        if_neg (by
          intro hc
          exact hpwdne (List.prefix_nil.mp hc))]
      exact hdir
    · rw [if_pos (mem_pathPrefixes.mpr ⟨hq0, hq⟩)]
termination_by 3 * FSTree.size t
decreasing_by
  exact dec_get_to_body t

/-- After the level reset, the body satisfies `SnapPost`. -/
theorem snapshotBody_spec (t : FSTree) (src_path dest_path dest_path_root : List String)
    (isl : Bool) (d : Int) (st : DestState)
    (hwf : WFStateB st = true) (htwf : FSTree.wfB t = true)
    (hof0 : st.fileAt (dest_path ++ [pathName src_path] ++
      [pathName src_path ++ ".html"]) = some [])
    (hch0 : ∀ q, (dest_path ++ [pathName src_path]) <+: q →
      q ≠ dest_path ++ [pathName src_path] ++ [pathName src_path ++ ".html"] →
      st.fileAt q = none)
    (hdirs : ∀ r ∈ pathPrefixes (dest_path ++ [pathName src_path]), st.isDirAt r = true) :
    SnapPost t src_path dest_path dest_path_root isl d st
      (snapshotBody t src_path dest_path dest_path_root isl d st) :=
  match t, htwf with
  | .node none, _ => by
    by_cases hguard : src_path = dest_path_root
    · have hpOut : ∀ r ∈ pathPrefixes (dest_path ++ [pathName src_path] ++
          [pathName src_path ++ ".html"]),
          r ≠ dest_path ++ [pathName src_path] ++ [pathName src_path ++ ".html"] →
          st.isDirAt r = true := by
        intro r hr hne
        rcases mem_pathPrefixes_snoc_of_ne hr hne with h | rfl
        · exact hdirs r h
        · exact hdirs _ (mem_pathPrefixes.mpr ⟨by simp, List.prefix_refl _⟩)
      simp only [snapshotBody, if_pos hguard]
      refine ⟨rfl, ?_, ?_, fun q hq => ?_, fun q hq hdir => ?_, ?_⟩
      · rw [snapSize_guard hguard]
      · show (st.setFile _ _).fileAt _ = _
        rw [fileAt_setFile, if_pos rfl, docOf_guard hguard]
      · show (st.setFile _ _).fileAt q = st.fileAt q
        rw [fileAt_setFile, if_neg (by
          rintro rfl
          exact hq ⟨[pathName src_path ++ ".html"], rfl⟩)]
      · show (st.setFile _ _).isDirAt q = true
        rw [isDirAt_setFile]
        exact hdir
      · exact WF_setFile hwf hpOut _
    · simp only [snapshotBody, if_neg hguard]
      refine ⟨rfl, ?_, ?_, fun q hq => rfl, fun q hq hdir => hdir, hwf⟩
      · rw [snapSize_none hguard]
      · rw [docOf_none hguard]
        exact hof0
  | .node (some contents), htwf => by
    by_cases hguard : src_path = dest_path_root
    · have hpOut : ∀ r ∈ pathPrefixes (dest_path ++ [pathName src_path] ++
          [pathName src_path ++ ".html"]),
          r ≠ dest_path ++ [pathName src_path] ++ [pathName src_path ++ ".html"] →
          st.isDirAt r = true := by
        intro r hr hne
        rcases mem_pathPrefixes_snoc_of_ne hr hne with h | rfl
        · exact hdirs r h
        · exact hdirs _ (mem_pathPrefixes.mpr ⟨by simp, List.prefix_refl _⟩)
      simp only [snapshotBody, if_pos hguard]
      refine ⟨rfl, ?_, ?_, fun q hq => ?_, fun q hq hdir => ?_, ?_⟩
      · rw [snapSize_guard hguard]
      · show (st.setFile _ _).fileAt _ = _
        rw [fileAt_setFile, if_pos rfl, docOf_guard hguard]
      · show (st.setFile _ _).fileAt q = st.fileAt q
        rw [fileAt_setFile, if_neg (by
          rintro rfl
          exact hq ⟨[pathName src_path ++ ".html"], rfl⟩)]
      · show (st.setFile _ _).isDirAt q = true
        rw [isDirAt_setFile]
        exact hdir
      · exact WF_setFile hwf hpOut _
    · obtain ⟨hnodupC, hsubC⟩ := wfB_node_some htwf
      simp only [snapshotBody, if_neg hguard]
      set pwd := dest_path ++ [pathName src_path] with hpwdd
      set out := pwd ++ [pathName src_path ++ ".html"] with houtd
      set cats := categorize (sortContents contents) with hcatsd
      set files := cats.2.1 with hfilesd
      set dirs := cats.2.2 with hdirsd
      set syms := cats.1 with hsymsd
      set st2 := (st.setFile out [DocItem.htmlHeader (pathName src_path)]).appendItem out
        DocItem.filesTableHeader with hst2d
      set st3 := (if files.isEmpty = true then st2.appendItem out DocItem.noFiles else st2)
        with hst3d
      set rF := processFiles files out st3 with hrFd
      set st5 := (rF.st.appendItem out DocItem.tableClose).appendItem out
        DocItem.dirsTableHeader with hst5d
      set st6 := (if dirs.isEmpty = true then st5.appendItem out DocItem.noSubdirs
        else if d = 0 then st5.appendItem out DocItem.depthLimitReached else st5) with hst6d
      set dirs2 := effectiveDirs dirs d with hdirs2d
      set rD := processDirs dirs2 src_path dest_path dest_path_root isl d st6 with hrDd
      set st7 := rD.st.appendItem out DocItem.tableClose with hst7d
      have hpne : pwd ≠ [] := by rw [hpwdd]; simp
      have hpOut : ∀ r ∈ pathPrefixes out, r ≠ out → st.isDirAt r = true := by
        intro r hr hne
        rw [houtd] at hr hne
        rcases mem_pathPrefixes_snoc_of_ne hr hne with h | rfl
        · exact hdirs r h
        · exact hdirs _ (mem_pathPrefixes.mpr ⟨hpne, List.prefix_refl _⟩)
      -- header and files-table header
      have hst2_out : st2.fileAt out =
          some [DocItem.htmlHeader (pathName src_path), DocItem.filesTableHeader] := by
        rw [hst2d, fileAt_appendItem, if_pos rfl, fileAt_setFile, if_pos rfl]
        rfl
      have hst2_o : ∀ q, q ≠ out → st2.fileAt q = st.fileAt q := by
        intro q hq
        rw [hst2d, fileAt_appendItem, if_neg hq, fileAt_setFile, if_neg hq]
      have hst2_dir : ∀ q, st2.isDirAt q = st.isDirAt q := by
        intro q
        rw [hst2d, isDirAt_appendItem, isDirAt_setFile]
      have hst2_wf : WFStateB st2 = true := by
        rw [hst2d]
        refine WF_appendItem (WF_setFile hwf hpOut _) ?_ _
        intro r hr hne
        rw [isDirAt_setFile]
        exact hpOut r hr hne
      -- optional "No files found." line
      have hst3_out : st3.fileAt out =
          some ([DocItem.htmlHeader (pathName src_path), DocItem.filesTableHeader] ++
            (if files.isEmpty = true then [DocItem.noFiles] else [])) := by
        by_cases hc : files.isEmpty = true
        · rw [hst3d, if_pos hc, if_pos hc, fileAt_appendItem, if_pos rfl, hst2_out]
          rfl
        · rw [hst3d, if_neg hc, if_neg hc, hst2_out]
          simp
      have hst3_o : ∀ q, q ≠ out → st3.fileAt q = st.fileAt q := by
        intro q hq
        rw [hst3d]
        split
        · rw [fileAt_appendItem, if_neg hq, hst2_o q hq]
        · exact hst2_o q hq
      have hst3_dir : ∀ q, st3.isDirAt q = st.isDirAt q := by
        intro q
        rw [hst3d]
        split
        · rw [isDirAt_appendItem, hst2_dir]
        · exact hst2_dir q
      have hst3_wf : WFStateB st3 = true := by
        rw [hst3d]
        split
        · refine WF_appendItem hst2_wf ?_ _
          intro r hr hne
          rw [hst2_dir]
          exact hpOut r hr hne
        · exact hst2_wf
      have hst3_some : (st3.fileAt out).isSome = true := by
        rw [hst3_out]
        rfl
      -- the files loop
      have hrF_st : rF.st = appendItems st3 out (fileRowsOf files) := by
        rw [hrFd, processFiles_spec]
      have hrF_ret : rF.ret = filesRet files := by
        rw [hrFd, processFiles_spec]
      have hrF_out : rF.st.fileAt out =
          some ([DocItem.htmlHeader (pathName src_path), DocItem.filesTableHeader] ++
            (if files.isEmpty = true then [DocItem.noFiles] else []) ++
            fileRowsOf files) := by
        rw [hrF_st, fileAt_appendItems hst3_some, if_pos rfl, hst3_out]
        simp
      have hrF_o : ∀ q, q ≠ out → rF.st.fileAt q = st.fileAt q := by
        intro q hq
        rw [hrF_st, fileAt_appendItems hst3_some, if_neg hq, hst3_o q hq]
      have hrF_dir : ∀ q, rF.st.isDirAt q = st.isDirAt q := by
        intro q
        rw [hrF_st, isDirAt_appendItems, hst3_dir]
      have hrF_wf : WFStateB rF.st = true := by
        rw [hrF_st]
        refine WF_appendItems hst3_wf ?_ _
        intro r hr hne
        rw [hst3_dir]
        exact hpOut r hr hne
      -- close the files table, open the directories table
      have hst5_out : st5.fileAt out =
          some ([DocItem.htmlHeader (pathName src_path), DocItem.filesTableHeader] ++
            (if files.isEmpty = true then [DocItem.noFiles] else []) ++
            fileRowsOf files ++ [DocItem.tableClose, DocItem.dirsTableHeader]) := by
        rw [hst5d, fileAt_appendItem, if_pos rfl, fileAt_appendItem, if_pos rfl, hrF_out]
        simp
      have hst5_o : ∀ q, q ≠ out → st5.fileAt q = st.fileAt q := by
        intro q hq
        rw [hst5d, fileAt_appendItem, if_neg hq, fileAt_appendItem, if_neg hq, hrF_o q hq]
      have hst5_dir : ∀ q, st5.isDirAt q = st.isDirAt q := by
        intro q
        rw [hst5d, isDirAt_appendItem, isDirAt_appendItem, hrF_dir]
      have hst5_wf : WFStateB st5 = true := by
        rw [hst5d]
        have hp1 : ∀ r ∈ pathPrefixes out, r ≠ out → rF.st.isDirAt r = true := by
          intro r hr hne
          rw [hrF_dir]
          exact hpOut r hr hne
        refine WF_appendItem (WF_appendItem hrF_wf hp1 _) ?_ _
        intro r hr hne
        rw [isDirAt_appendItem, hrF_dir]
        exact hpOut r hr hne
      -- optional placeholder in the directories table
      have hst6_out : st6.fileAt out =
          some ([DocItem.htmlHeader (pathName src_path), DocItem.filesTableHeader] ++
            (if files.isEmpty = true then [DocItem.noFiles] else []) ++
            fileRowsOf files ++ [DocItem.tableClose, DocItem.dirsTableHeader] ++
            (if dirs.isEmpty = true then [DocItem.noSubdirs]
             else if d = 0 then [DocItem.depthLimitReached] else [])) := by
        by_cases hde : dirs.isEmpty = true
        · rw [hst6d, if_pos hde, if_pos hde, fileAt_appendItem, if_pos rfl, hst5_out]
          simp
        · by_cases hd0 : d = 0
          · rw [hst6d, if_neg hde, if_neg hde, if_pos hd0, if_pos hd0, fileAt_appendItem,
              if_pos rfl, hst5_out]
            simp
          · rw [hst6d, if_neg hde, if_neg hde, if_neg hd0, if_neg hd0, hst5_out]
            simp
      have hst6_o : ∀ q, q ≠ out → st6.fileAt q = st.fileAt q := by
        intro q hq
        rw [hst6d]
        split
        · rw [fileAt_appendItem, if_neg hq, hst5_o q hq]
        · split
          · rw [fileAt_appendItem, if_neg hq, hst5_o q hq]
          · exact hst5_o q hq
      have hst6_dir : ∀ q, st6.isDirAt q = st.isDirAt q := by
        intro q
        rw [hst6d]
        split
        · rw [isDirAt_appendItem, hst5_dir]
        · split
          · rw [isDirAt_appendItem, hst5_dir]
          · exact hst5_dir q
      have hst6_wf : WFStateB st6 = true := by
        have hp1 : ∀ r ∈ pathPrefixes out, r ≠ out → st5.isDirAt r = true := by
          intro r hr hne
          rw [hst5_dir]
          exact hpOut r hr hne
        rw [hst6d]
        split
        · exact WF_appendItem hst5_wf hp1 _
        · split
          · exact WF_appendItem hst5_wf hp1 _
          · exact hst5_wf
      have hst6_some : (st6.fileAt out).isSome = true := by
        rw [hst6_out]
        rfl
      -- the directories loop
      have hdirsSubset : ∀ p ∈ dirs2, p ∈ contents := by
        intro p hp
        rw [hdirs2d] at hp
        have h1 := mem_effectiveDirs hp
        rw [hdirsd, hcatsd, categorize_dirs] at h1
        exact mem_sortContents.mp (List.mem_filter.mp h1).1
      have hsubD : ∀ p ∈ dirs2, FSTree.wfB p.2 = true := fun p hp =>
        hsubC p (hdirsSubset p hp)
      have hnodupD : (dirs2.map fun p => p.1.name).Nodup := by
        rw [hdirs2d]
        refine names_nodup_effectiveDirs ?_
        rw [hdirsd, hcatsd, categorize_dirs]
        exact names_nodup_filter _ (names_nodup_sortContents hnodupC)
      have hchD : ∀ p ∈ dirs2, pwd ++ [p.1.name] ≠ out →
          st6.fileAt (pwd ++ [p.1.name]) = none := by
        intro p hp hne
        rw [hst6_o _ hne]
        exact hch0 _ ⟨[p.1.name], rfl⟩ hne
      obtain ⟨hDr, hDret, hDdoc, hDfp, hDD, hDwf⟩ :=
        processDirs_spec dirs2 src_path dest_path dest_path_root isl d st6 hst6_wf hsubD
          hnodupD hst6_some hchD
      rw [← hpwdd] at hDdoc hDfp hDD
      rw [← houtd] at hDdoc hDfp
      rw [← hrDd] at hDret hDdoc hDfp hDD hDwf
      -- close the directories table
      have hst7_out : st7.fileAt out =
          some ([DocItem.htmlHeader (pathName src_path), DocItem.filesTableHeader] ++
            (if files.isEmpty = true then [DocItem.noFiles] else []) ++
            fileRowsOf files ++ [DocItem.tableClose, DocItem.dirsTableHeader] ++
            (if dirs.isEmpty = true then [DocItem.noSubdirs]
             else if d = 0 then [DocItem.depthLimitReached] else []) ++
            dirRowsOf dirs2 src_path dest_path_root d ++ [DocItem.tableClose]) := by
        rw [hst7d, fileAt_appendItem, if_pos rfl, hDdoc, hst6_out]
        simp
      have hst7_o : ∀ q, (∀ p ∈ dirs2, ¬(pwd ++ [p.1.name] <+: q)) → q ≠ out →
          st7.fileAt q = st.fileAt q := by
        intro q hq hne
        rw [hst7d, fileAt_appendItem, if_neg hne, hDfp q hq hne, hst6_o q hne]
      have hst7_D : ∀ q, q <+: pwd → st.isDirAt q = true → st7.isDirAt q = true := by
        intro q hq hdir
        rw [hst7d, isDirAt_appendItem]
        refine hDD q hq ?_
        rw [hst6_dir]
        exact hdir
      have hst7_wf : WFStateB st7 = true := by
        rw [hst7d]
        refine WF_appendItem hDwf (dirs_of_file hDwf ?_) _
        rw [hDdoc]
        rfl
      have hst7_some : (st7.fileAt out).isSome = true := by
        rw [hst7_out]
        rfl
      -- the total written in the footer
      have htotal : rF.ret + rD.ret =
          snapSize (FSTree.node (some contents)) src_path dest_path_root d := by
        rw [hrF_ret, hDret, snapSize_some hguard, ← hcatsd, ← hfilesd, ← hdirsd, ← hdirs2d]
      have hqout : ∀ q, ¬(pwd <+: q) → q ≠ out := by
        intro q hq
        rintro rfl
        exact hq (by rw [houtd]; exact ⟨[pathName src_path ++ ".html"], rfl⟩)
      have hqdirs : ∀ q, ¬(pwd <+: q) → ∀ p ∈ dirs2, ¬(pwd ++ [p.1.name] <+: q) := by
        intro q hq p hp hpre
        exact hq (List.IsPrefix.trans ⟨[p.1.name], rfl⟩ hpre)
      -- the placeholder line and the rows of each table merge into the
      -- corresponding section of the final document
      have hfileSec : ∀ tail : List DocItem,
          (if files.isEmpty = true then [DocItem.noFiles] else []) ++
            (fileRowsOf files ++ tail) =
          (if files.isEmpty = true then [DocItem.noFiles] else fileRowsOf files) ++
            tail := by
        intro tail
        by_cases h : files.isEmpty = true
        · rw [if_pos h, if_pos h, List.isEmpty_iff.mp h, fileRowsOf_nil]
          simp
        · rw [if_neg h, if_neg h]
          simp
      have hdirSec : ∀ tail : List DocItem,
          (if dirs.isEmpty = true then [DocItem.noSubdirs]
           else if d = 0 then [DocItem.depthLimitReached] else []) ++
            (dirRowsOf dirs2 src_path dest_path_root d ++ tail) =
          (if dirs.isEmpty = true then [DocItem.noSubdirs]
           else if d = 0 then [DocItem.depthLimitReached]
           else dirRowsOf dirs src_path dest_path_root d) ++ tail := by
        intro tail
        by_cases hde : dirs.isEmpty = true
        · rw [if_pos hde, if_pos hde, hdirs2d, effectiveDirs_of_isEmpty hde,
            List.isEmpty_iff.mp hde, dirRowsOf_nil]
          simp
        · by_cases hd0 : d = 0
          · rw [if_neg hde, if_neg hde, if_pos hd0, if_pos hd0, hdirs2d,
              effectiveDirs_of_zero hde hd0, dirRowsOf_nil]
            simp
          · rw [if_neg hde, if_neg hde, if_neg hd0, if_neg hd0, hdirs2d,
              effectiveDirs_of_pos hde hd0]
            simp
      have hsymSec : ∀ tail : List DocItem,
          (if syms.isEmpty = true then [DocItem.noSymlinks] else []) ++
            (symlinkRowsOf syms ++ tail) =
          (if syms.isEmpty = true then [DocItem.noSymlinks] else symlinkRowsOf syms) ++
            tail := by
        intro tail
        by_cases h : syms.isEmpty = true
        · rw [if_pos h, if_pos h, List.isEmpty_iff.mp h, symlinkRowsOf_nil]
          simp
        · rw [if_neg h, if_neg h]
          simp
      -- the symlinks section, then the footer
      by_cases hisl : isl = true
      · simp only [if_pos hisl]
        refine ⟨rfl, ?_, ?_, fun q hq => ?_, fun q hq hdir => ?_, ?_⟩
        · exact htotal
        · show (st7.appendItem out (DocItem.tableFooter (rF.ret + rD.ret))).fileAt out = _
          rw [fileAt_appendItem, if_pos rfl, hst7_out, docOf_some hguard, htotal,
            docOfListing_eq, ← hcatsd, ← hfilesd, ← hdirsd, ← hsymsd, if_pos hisl]
          simp only [Option.getD_some, List.append_assoc, List.cons_append,
            List.nil_append, List.singleton_append]
          rw [hfileSec, hdirSec]
        · show (st7.appendItem out (DocItem.tableFooter (rF.ret + rD.ret))).fileAt q =
            st.fileAt q
          rw [fileAt_appendItem, if_neg (hqout q hq)]
          exact hst7_o q (hqdirs q hq) (hqout q hq)
        · show (st7.appendItem out (DocItem.tableFooter (rF.ret + rD.ret))).isDirAt q = true
          rw [isDirAt_appendItem]
          exact hst7_D q hq hdir
        · exact WF_appendItem hst7_wf (dirs_of_file hst7_wf hst7_some) _
      · simp only [if_neg hisl]
        set stS0 := (if syms.isEmpty = true then
            (st7.appendItem out DocItem.symlinksTableHeader).appendItem out DocItem.noSymlinks
          else st7.appendItem out DocItem.symlinksTableHeader) with hstS0d
        set rSy := processSymlinks syms out stS0 with hrSyd
        have hstS0_out : stS0.fileAt out =
            some ([DocItem.htmlHeader (pathName src_path), DocItem.filesTableHeader] ++
              (if files.isEmpty = true then [DocItem.noFiles] else []) ++
              fileRowsOf files ++ [DocItem.tableClose, DocItem.dirsTableHeader] ++
              (if dirs.isEmpty = true then [DocItem.noSubdirs]
               else if d = 0 then [DocItem.depthLimitReached] else []) ++
              dirRowsOf dirs2 src_path dest_path_root d ++ [DocItem.tableClose] ++
              ([DocItem.symlinksTableHeader] ++
                (if syms.isEmpty = true then [DocItem.noSymlinks] else []))) := by
          by_cases hse : syms.isEmpty = true
          · rw [hstS0d, if_pos hse, if_pos hse, fileAt_appendItem, if_pos rfl,
              fileAt_appendItem, if_pos rfl, hst7_out]
            simp
          · rw [hstS0d, if_neg hse, if_neg hse, fileAt_appendItem, if_pos rfl, hst7_out]
            simp
        have hstS0_o : ∀ q, q ≠ out → stS0.fileAt q = st7.fileAt q := by
          intro q hq
          rw [hstS0d]
          split
          · rw [fileAt_appendItem, if_neg hq, fileAt_appendItem, if_neg hq]
          · rw [fileAt_appendItem, if_neg hq]
        have hstS0_dir : ∀ q, stS0.isDirAt q = st7.isDirAt q := by
          intro q
          rw [hstS0d]
          split
          · rw [isDirAt_appendItem, isDirAt_appendItem]
          · rw [isDirAt_appendItem]
        have hstS0_wf : WFStateB stS0 = true := by
          have hp1 := dirs_of_file hst7_wf hst7_some
          rw [hstS0d]
          split
          · refine WF_appendItem (WF_appendItem hst7_wf hp1 _) ?_ _
            intro r hr hne
            rw [isDirAt_appendItem]
            exact hp1 r hr hne
          · exact WF_appendItem hst7_wf hp1 _
        have hstS0_some : (stS0.fileAt out).isSome = true := by
          rw [hstS0_out]
          rfl
        have hrSy_st : rSy.st = appendItems stS0 out (symlinkRowsOf syms) := by
          rw [hrSyd, processSymlinks_spec]
        refine ⟨rfl, ?_, ?_, fun q hq => ?_, fun q hq hdir => ?_, ?_⟩
        · exact htotal
        · show ((rSy.st.appendItem out DocItem.tableClose).appendItem out
              (DocItem.tableFooter (rF.ret + rD.ret))).fileAt out = _
          rw [fileAt_appendItem, if_pos rfl, fileAt_appendItem, if_pos rfl, hrSy_st,
            fileAt_appendItems hstS0_some, if_pos rfl, hstS0_out, docOf_some hguard, htotal,
            docOfListing_eq, ← hcatsd, ← hfilesd, ← hdirsd, ← hsymsd, if_neg hisl]
          simp only [Option.getD_some, List.append_assoc, List.cons_append,
            List.nil_append, List.singleton_append]
          rw [hfileSec, hdirSec, hsymSec]
        · show ((rSy.st.appendItem out DocItem.tableClose).appendItem out
              (DocItem.tableFooter (rF.ret + rD.ret))).fileAt q = st.fileAt q
          rw [fileAt_appendItem, if_neg (hqout q hq), fileAt_appendItem,
            if_neg (hqout q hq), hrSy_st, fileAt_appendItems hstS0_some,
            if_neg (hqout q hq), hstS0_o q (hqout q hq)]
          exact hst7_o q (hqdirs q hq) (hqout q hq)
        · show ((rSy.st.appendItem out DocItem.tableClose).appendItem out
              (DocItem.tableFooter (rF.ret + rD.ret))).isDirAt q = true
          rw [isDirAt_appendItem, isDirAt_appendItem, hrSy_st, isDirAt_appendItems,
            hstS0_dir]
          exact hst7_D q hq hdir
        · have hrSy_wf : WFStateB rSy.st = true := by
            rw [hrSy_st]
            refine WF_appendItems hstS0_wf ?_ _
            intro r hr hne
            rw [hstS0_dir]
            exact dirs_of_file hst7_wf hst7_some r hr hne
          have hrSy_some : (rSy.st.fileAt out).isSome = true := by
            rw [hrSy_st, fileAt_appendItems hstS0_some, if_pos rfl]
            rfl
          have hp2 := dirs_of_file hrSy_wf hrSy_some
          refine WF_appendItem (WF_appendItem hrSy_wf hp2 _) ?_ _
          intro r hr hne
          rw [isDirAt_appendItem]
          exact hp2 r hr hne
termination_by 3 * FSTree.size t - 1
decreasing_by
  exact dec_body_to_dirs _ _

/-- The directories loop satisfies `DirsPost`. -/
theorem processDirs_spec (ds : List (Entry × FSTree))
    (src_path dest_path dest_path_root : List String) (isl : Bool) (d : Int)
    (st : DestState)
    (hwf : WFStateB st = true)
    (hsub : ∀ p ∈ ds, FSTree.wfB p.2 = true)
    (hnodup : (ds.map fun p => p.1.name).Nodup)
    (hof : (st.fileAt (dest_path ++ [pathName src_path] ++
      [pathName src_path ++ ".html"])).isSome = true)
    (hch : ∀ p ∈ ds,
      dest_path ++ [pathName src_path] ++ [p.1.name] ≠
        dest_path ++ [pathName src_path] ++ [pathName src_path ++ ".html"] →
      st.fileAt (dest_path ++ [pathName src_path] ++ [p.1.name]) = none) :
    DirsPost ds src_path dest_path dest_path_root d st
      (processDirs ds src_path dest_path dest_path_root isl d st) :=
  match ds, hsub, hnodup, hch with
  | [], _, _, _ => by
    simp only [processDirs]
    obtain ⟨v, hv⟩ := Option.isSome_iff_exists.mp hof
    refine ⟨rfl, by rw [dirsSize], ?_, fun q _ _ => rfl, fun q _ h => h, hwf⟩
    simp only [dirRowsOf, List.filter_nil, List.map_nil, List.append_nil]
    rw [hv]
    simp
  | (e, sub) :: rest, hsub, hnodup, hch => by
    have hsub2 : ∀ p ∈ rest, FSTree.wfB p.2 = true :=
      fun p hp => hsub p (List.mem_cons_of_mem _ hp)
    have hnodup2 : (rest.map fun p => p.1.name).Nodup := by
      rw [List.map_cons, List.nodup_cons] at hnodup
      exact hnodup.2
    have hname2 : e.name ∉ rest.map fun p => p.1.name := by
      rw [List.map_cons, List.nodup_cons] at hnodup
      exact hnodup.1
    have hch2 : ∀ p ∈ rest,
        dest_path ++ [pathName src_path] ++ [p.1.name] ≠
          dest_path ++ [pathName src_path] ++ [pathName src_path ++ ".html"] →
        st.fileAt (dest_path ++ [pathName src_path] ++ [p.1.name]) = none :=
      fun p hp h => hch p (List.mem_cons_of_mem _ hp) h
    simp only [processDirs]
    by_cases hfail : e.procFails = true
    · rw [if_pos hfail]
      obtain ⟨ihr, ihret, ihdoc, ihfp, ihD, ihwf⟩ :=
        processDirs_spec rest src_path dest_path dest_path_root isl d st hwf hsub2 hnodup2
          hof hch2
      refine ⟨rfl, ?_, ?_, ?_, ihD, ihwf⟩
      · show (processDirs rest src_path dest_path dest_path_root isl d st).ret = _
        rw [ihret, dirsSize, if_pos (by simp [hfail])]
        ring
      · show (processDirs rest src_path dest_path dest_path_root isl d st).st.fileAt _ = _
        rw [ihdoc]
        simp [dirRowsOf, List.filter_cons, hfail]
      · intro q hq hqo
        exact ihfp q (fun p hp => hq p (List.mem_cons_of_mem _ hp)) hqo
    · rw [if_neg hfail]
      by_cases hcol : dest_path ++ [pathName src_path] ++ [e.name] =
          dest_path ++ [pathName src_path] ++ [pathName src_path ++ ".html"]
      · -- the child mirror path is the parent report file: the recursive
        -- call raises on its reset and the entry is skipped
        have hcole : e.name = pathName src_path ++ ".html" := snoc_inj.mp hcol
        have hcolB : collides e (pathName src_path) = true := by
          simp [collides, hcole]
        have hrc : get_snapshot sub (src_path ++ [e.name])
            (dest_path ++ [pathName src_path]) dest_path_root isl (d - 1) st =
            ⟨0, true, st, []⟩ := by
          have hcond : (st.fileAt (dest_path ++ [pathName src_path] ++
              [pathName (src_path ++ [e.name])])).isSome = true := by
            rw [pathName_snoc, hcol]
            exact hof
          simp only [get_snapshot, hcond, if_true]
        rw [hrc]
        rw [if_pos rfl]
        obtain ⟨ihr, ihret, ihdoc, ihfp, ihD, ihwf⟩ :=
          processDirs_spec rest src_path dest_path dest_path_root isl d st hwf hsub2 hnodup2
            hof hch2
        refine ⟨rfl, ?_, ?_, ?_, ihD, ihwf⟩
        · show (processDirs rest src_path dest_path dest_path_root isl d st).ret = _
          rw [ihret, dirsSize, if_pos (by simp [hcolB])]
          ring
        · show (processDirs rest src_path dest_path dest_path_root isl d st).st.fileAt _ = _
          rw [ihdoc]
          simp [dirRowsOf, List.filter_cons, hcolB]
        · intro q hq hqo
          exact ihfp q (fun p hp => hq p (List.mem_cons_of_mem _ hp)) hqo
      · -- a genuine recursive call into the child
        have hcolB2 : collides e (pathName src_path) = false := by
          rw [Bool.eq_false_iff]
          intro hc
          rw [collides, decide_eq_true_eq] at hc
          exact hcol (by rw [hc])
        have hchildnone : st.fileAt (dest_path ++ [pathName src_path] ++
            [pathName (src_path ++ [e.name])]) = none := by
          rw [pathName_snoc]
          exact hch (e, sub) (List.mem_cons_self _ _) hcol
        obtain ⟨hcr, hcret, hcdoc, hcfp, hcD, hcwf⟩ :=
          get_snapshot_spec sub (src_path ++ [e.name]) (dest_path ++ [pathName src_path])
            dest_path_root isl (d - 1) st hwf (hsub (e, sub) (List.mem_cons_self _ _))
            hchildnone
        rw [pathName_snoc] at hcfp hcD
        rw [if_neg (by simp [hcr])]
        have hnotpre : ¬((dest_path ++ [pathName src_path] ++ [e.name]) <+:
            (dest_path ++ [pathName src_path] ++ [pathName src_path ++ ".html"])) := by
          intro hpre
          exact hcol (by rw [snoc_prefix_snoc_iff.mp hpre])
        have hrcOut := hcfp _ hnotpre
        have hofc : ((get_snapshot sub (src_path ++ [e.name])
            (dest_path ++ [pathName src_path]) dest_path_root isl (d - 1) st).st.fileAt
            (dest_path ++ [pathName src_path] ++ [pathName src_path ++ ".html"])).isSome =
            true := by
          rw [hrcOut]
          exact hof
        have hrowWF : WFStateB ((get_snapshot sub (src_path ++ [e.name])
            (dest_path ++ [pathName src_path]) dest_path_root isl (d - 1) st).st.appendItem
            (dest_path ++ [pathName src_path] ++ [pathName src_path ++ ".html"])
            (DocItem.dirRow e.name (get_snapshot sub (src_path ++ [e.name])
              (dest_path ++ [pathName src_path]) dest_path_root isl (d - 1) st).ret)) =
            true :=
          WF_appendItem hcwf (dirs_of_file hcwf hofc) _
        have hrowOf : (((get_snapshot sub (src_path ++ [e.name])
            (dest_path ++ [pathName src_path]) dest_path_root isl (d - 1) st).st.appendItem
            (dest_path ++ [pathName src_path] ++ [pathName src_path ++ ".html"])
            (DocItem.dirRow e.name (get_snapshot sub (src_path ++ [e.name])
              (dest_path ++ [pathName src_path]) dest_path_root isl (d - 1) st).ret)).fileAt
            (dest_path ++ [pathName src_path] ++ [pathName src_path ++ ".html"])).isSome =
            true := by
          rw [fileAt_appendItem]
          simp
        have hrowCh : ∀ p ∈ rest,
            dest_path ++ [pathName src_path] ++ [p.1.name] ≠
              dest_path ++ [pathName src_path] ++ [pathName src_path ++ ".html"] →
            ((get_snapshot sub (src_path ++ [e.name])
              (dest_path ++ [pathName src_path]) dest_path_root isl (d - 1) st).st.appendItem
              (dest_path ++ [pathName src_path] ++ [pathName src_path ++ ".html"])
              (DocItem.dirRow e.name (get_snapshot sub (src_path ++ [e.name])
                (dest_path ++ [pathName src_path]) dest_path_root isl (d - 1) st).ret)).fileAt
              (dest_path ++ [pathName src_path] ++ [p.1.name]) = none := by
          intro p hp hne
          rw [fileAt_appendItem, if_neg hne]
          have hnp : ¬((dest_path ++ [pathName src_path] ++ [e.name]) <+:
              (dest_path ++ [pathName src_path] ++ [p.1.name])) := by
            intro hpre
            exact hname2 (snoc_prefix_snoc_iff.mp hpre ▸ List.mem_map.mpr ⟨p, hp, rfl⟩)
          rw [hcfp _ hnp]
          exact hch2 p hp hne
        obtain ⟨ihr, ihret, ihdoc, ihfp, ihD, ihwf⟩ :=
          processDirs_spec rest src_path dest_path dest_path_root isl d _ hrowWF hsub2
            hnodup2 hrowOf hrowCh
        refine ⟨rfl, ?_, ?_, ?_, ?_, ihwf⟩
        · show (get_snapshot sub (src_path ++ [e.name]) (dest_path ++ [pathName src_path])
              dest_path_root isl (d - 1) st).ret + _ = _
          rw [ihret, hcret, dirsSize, if_neg (by simp [hfail, hcolB2])]
        · show (processDirs rest src_path dest_path dest_path_root isl d _).st.fileAt _ = _
          rw [ihdoc, fileAt_appendItem, if_pos rfl, hrcOut]
          simp only [dirRowsOf, List.filter_cons]
          simp only [hfail, hcolB2, Bool.not_false, Bool.and_self, if_true, List.map_cons,
            Option.getD_some, hcret]
          simp [List.append_assoc]
        · intro q hq hqo
          rw [ihfp q (fun p hp => hq p (List.mem_cons_of_mem _ hp)) hqo,
            fileAt_appendItem, if_neg hqo, hcfp q (hq (e, sub) (List.mem_cons_self _ _))]
        · intro q hq hdir
          refine ihD q hq ?_
          rw [isDirAt_appendItem]
          exact hcD q (hq.trans ⟨[e.name], rfl⟩) hdir
termination_by 3 * sizeList ds + 1
decreasing_by
  all_goals first
    | exact dec_dirs_to_get _ _ _
    | exact dec_dirs_to_rest _ _ _
end

/-! ### The run is determined by the destination contents under its mirror path -/

set_option maxHeartbeats 1600000 in
mutual
/-- Two runs from states that agree everywhere under the mirror path produce
the same raise outcome, return value and trace, and preserve pointwise
agreement of the destination states. -/
theorem get_snapshot_agree (t : FSTree) (src_path dest_path dest_path_root : List String)
    (isl : Bool) (d : Int) (s₁ s₂ : DestState)
    (H : ∀ q, (dest_path ++ [pathName src_path]) <+: q → agreeAt q s₁ s₂) :
    (get_snapshot t src_path dest_path dest_path_root isl d s₁).raised =
      (get_snapshot t src_path dest_path dest_path_root isl d s₂).raised ∧
    (get_snapshot t src_path dest_path dest_path_root isl d s₁).ret =
      (get_snapshot t src_path dest_path dest_path_root isl d s₂).ret ∧
    (get_snapshot t src_path dest_path dest_path_root isl d s₁).tr =
      (get_snapshot t src_path dest_path dest_path_root isl d s₂).tr ∧
    ∀ q, agreeAt q s₁ s₂ →
      agreeAt q (get_snapshot t src_path dest_path dest_path_root isl d s₁).st
        (get_snapshot t src_path dest_path dest_path_root isl d s₂).st := by
  have hpwd : agreeAt (dest_path ++ [pathName src_path]) s₁ s₂ := H _ (List.prefix_refl _)
  have hout : agreeAt (dest_path ++ [pathName src_path] ++ [pathName src_path ++ ".html"])
      s₁ s₂ := H _ ⟨[pathName src_path ++ ".html"], rfl⟩
  cases hrs : (s₂.fileAt (dest_path ++ [pathName src_path])).isSome with
  | true =>
    have hrs₁ : (s₁.fileAt (dest_path ++ [pathName src_path])).isSome = true := by
      rw [hpwd.1, hrs]
    simp only [get_snapshot, hrs, hrs₁, if_true]
    exact ⟨by trivial, by trivial, by trivial, fun q h => h⟩
  | false =>
    have hrs₁ : (s₁.fileAt (dest_path ++ [pathName src_path])).isSome = false := by
      rw [hpwd.1, hrs]
    obtain ⟨hrtr, hrpres⟩ := resetLevel_agree hpwd hout
    obtain ⟨hbr, hbret, hbtr, hbpres⟩ :=
      snapshotBody_agree t src_path dest_path dest_path_root isl d _ _
        (fun q hq => hrpres q (H q hq))
    simp only [get_snapshot, hrs, hrs₁, Bool.false_eq_true, if_false]
    exact ⟨by trivial, hbret, by rw [hrtr, hbtr], fun q h => hbpres q (hrpres q h)⟩
termination_by 3 * FSTree.size t
decreasing_by
  exact dec_get_to_body t

/-- The body of a call behaves identically on states that agree under the
mirror path. -/
theorem snapshotBody_agree (t : FSTree) (src_path dest_path dest_path_root : List String)
    (isl : Bool) (d : Int) (s₁ s₂ : DestState)
    (H : ∀ q, (dest_path ++ [pathName src_path]) <+: q → agreeAt q s₁ s₂) :
    (snapshotBody t src_path dest_path dest_path_root isl d s₁).raised =
      (snapshotBody t src_path dest_path dest_path_root isl d s₂).raised ∧
    (snapshotBody t src_path dest_path dest_path_root isl d s₁).ret =
      (snapshotBody t src_path dest_path dest_path_root isl d s₂).ret ∧
    (snapshotBody t src_path dest_path dest_path_root isl d s₁).tr =
      (snapshotBody t src_path dest_path dest_path_root isl d s₂).tr ∧
    ∀ q, agreeAt q s₁ s₂ →
      agreeAt q (snapshotBody t src_path dest_path dest_path_root isl d s₁).st
        (snapshotBody t src_path dest_path dest_path_root isl d s₂).st :=
  match t with
  | .node none => by
    by_cases hguard : src_path = dest_path_root
    · simp only [snapshotBody, if_pos hguard]
      exact ⟨by trivial, by trivial, by trivial, fun q h => agreeAt_setFile _ _ q h⟩
    · simp only [snapshotBody, if_neg hguard]
      exact ⟨by trivial, by trivial, by trivial, fun q h => h⟩
  | .node (some contents) => by
    by_cases hguard : src_path = dest_path_root
    · simp only [snapshotBody, if_pos hguard]
      exact ⟨by trivial, by trivial, by trivial, fun q h => agreeAt_setFile _ _ q h⟩
    · simp only [snapshotBody, if_neg hguard]
      set pwd := dest_path ++ [pathName src_path] with hpwdd
      set out := pwd ++ [pathName src_path ++ ".html"] with houtd
      set cats := categorize (sortContents contents) with hcatsd
      set files := cats.2.1 with hfilesd
      set dirs := cats.2.2 with hdirsd
      set syms := cats.1 with hsymsd
      set stA2 := (s₁.setFile out [DocItem.htmlHeader (pathName src_path)]).appendItem out
        DocItem.filesTableHeader with hstA2
      set stB2 := (s₂.setFile out [DocItem.htmlHeader (pathName src_path)]).appendItem out
        DocItem.filesTableHeader with hstB2
      set stA3 := (if files.isEmpty = true then stA2.appendItem out DocItem.noFiles else stA2)
        with hstA3
      set stB3 := (if files.isEmpty = true then stB2.appendItem out DocItem.noFiles else stB2)
        with hstB3
      set rFA := processFiles files out stA3 with hrFAd
      set rFB := processFiles files out stB3 with hrFBd
      set stA5 := (rFA.st.appendItem out DocItem.tableClose).appendItem out
        DocItem.dirsTableHeader with hstA5
      set stB5 := (rFB.st.appendItem out DocItem.tableClose).appendItem out
        DocItem.dirsTableHeader with hstB5
      set stA6 := (if dirs.isEmpty = true then stA5.appendItem out DocItem.noSubdirs
        else if d = 0 then stA5.appendItem out DocItem.depthLimitReached else stA5) with hstA6
      set stB6 := (if dirs.isEmpty = true then stB5.appendItem out DocItem.noSubdirs
        else if d = 0 then stB5.appendItem out DocItem.depthLimitReached else stB5) with hstB6
      set dirs2 := effectiveDirs dirs d with hdirs2d
      set rDA := processDirs dirs2 src_path dest_path dest_path_root isl d stA6 with hrDAd
      set rDB := processDirs dirs2 src_path dest_path dest_path_root isl d stB6 with hrDBd
      set stA7 := rDA.st.appendItem out DocItem.tableClose with hstA7
      set stB7 := rDB.st.appendItem out DocItem.tableClose with hstB7
      have hout : agreeAt out s₁ s₂ := H out (by rw [houtd]; exact ⟨_, rfl⟩)
      have hA2 : ∀ q, agreeAt q s₁ s₂ → agreeAt q stA2 stB2 := by
        intro q h
        rw [hstA2, hstB2]
        exact agreeAt_appendItem out _ (agreeAt_setFile out _ out hout) q
          (agreeAt_setFile out _ q h)
      have h2out : agreeAt out stA2 stB2 := hA2 out hout
      have hA3 : ∀ q, agreeAt q s₁ s₂ → agreeAt q stA3 stB3 := by
        intro q h
        rw [hstA3, hstB3]
        by_cases he : files.isEmpty = true
        · rw [if_pos he, if_pos he]
          exact agreeAt_appendItem out _ h2out q (hA2 q h)
        · rw [if_neg he, if_neg he]
          exact hA2 q h
      have h3out : agreeAt out stA3 stB3 := hA3 out hout
      have hrFA_eq : rFA = ⟨filesRet files, false, appendItems stA3 out (fileRowsOf files),
          filesTraceOf out files⟩ := by
        rw [hrFAd, processFiles_spec]
      have hrFB_eq : rFB = ⟨filesRet files, false, appendItems stB3 out (fileRowsOf files),
          filesTraceOf out files⟩ := by
        rw [hrFBd, processFiles_spec]
      have hFret : rFA.ret = rFB.ret := by
        rw [hrFA_eq, hrFB_eq]
      have hFtr : rFA.tr = rFB.tr := by
        rw [hrFA_eq, hrFB_eq]
      have hAF : ∀ q, agreeAt q s₁ s₂ → agreeAt q rFA.st rFB.st := by
        intro q h
        rw [hrFA_eq, hrFB_eq]
        exact agreeAt_appendItems out _ h3out q (hA3 q h)
      have hFout : agreeAt out rFA.st rFB.st := hAF out hout
      have hA5 : ∀ q, agreeAt q s₁ s₂ → agreeAt q stA5 stB5 := by
        intro q h
        rw [hstA5, hstB5]
        exact agreeAt_appendItem out _ (agreeAt_appendItem out _ hFout out hFout) q
          (agreeAt_appendItem out _ hFout q (hAF q h))
      have h5out : agreeAt out stA5 stB5 := hA5 out hout
      have hA6 : ∀ q, agreeAt q s₁ s₂ → agreeAt q stA6 stB6 := by
        intro q h
        rw [hstA6, hstB6]
        by_cases hde : dirs.isEmpty = true
        · rw [if_pos hde, if_pos hde]
          exact agreeAt_appendItem out _ h5out q (hA5 q h)
        · rw [if_neg hde, if_neg hde]
          by_cases hd0 : d = 0
          · rw [if_pos hd0, if_pos hd0]
            exact agreeAt_appendItem out _ h5out q (hA5 q h)
          · rw [if_neg hd0, if_neg hd0]
            exact hA5 q h
      obtain ⟨hDret, hDtr, hDpres⟩ := processDirs_agree dirs2 src_path dest_path
        dest_path_root isl d stA6 stB6 (fun q hq => hA6 q (H q hq))
      rw [← hrDAd, ← hrDBd] at hDret hDtr hDpres
      have hAD : ∀ q, agreeAt q s₁ s₂ → agreeAt q rDA.st rDB.st :=
        fun q h => hDpres q (hA6 q h)
      have hDout : agreeAt out rDA.st rDB.st := hAD out hout
      have hA7 : ∀ q, agreeAt q s₁ s₂ → agreeAt q stA7 stB7 := by
        intro q h
        rw [hstA7, hstB7]
        exact agreeAt_appendItem out _ hDout q (hAD q h)
      have h7out : agreeAt out stA7 stB7 := hA7 out hout
      by_cases hisl : isl = true
      · simp only [if_pos hisl]
        refine ⟨by trivial, ?_, ?_, ?_⟩
        · rw [hFret, hDret]
        · rw [hFret, hFtr, hDret, hDtr]
        · intro q h
          rw [hFret, hDret]
          exact agreeAt_appendItem out _ h7out q (hA7 q h)
      · simp only [if_neg hisl]
        set sA2 := (if syms.isEmpty = true then
            (stA7.appendItem out DocItem.symlinksTableHeader).appendItem out DocItem.noSymlinks
          else stA7.appendItem out DocItem.symlinksTableHeader) with hsA2
        set sB2 := (if syms.isEmpty = true then
            (stB7.appendItem out DocItem.symlinksTableHeader).appendItem out DocItem.noSymlinks
          else stB7.appendItem out DocItem.symlinksTableHeader) with hsB2
        set rrA := processSymlinks syms out sA2 with hrrAd
        set rrB := processSymlinks syms out sB2 with hrrBd
        have hA8 : ∀ q, agreeAt q s₁ s₂ → agreeAt q sA2 sB2 := by
          intro q h
          rw [hsA2, hsB2]
          by_cases hse : syms.isEmpty = true
          · rw [if_pos hse, if_pos hse]
            exact agreeAt_appendItem out _ (agreeAt_appendItem out _ h7out out h7out) q
              (agreeAt_appendItem out _ h7out q (hA7 q h))
          · rw [if_neg hse, if_neg hse]
            exact agreeAt_appendItem out _ h7out q (hA7 q h)
        have h8out : agreeAt out sA2 sB2 := hA8 out hout
        have hrrA_eq : rrA = ⟨0, false, appendItems sA2 out (symlinkRowsOf syms),
            symlinksTraceOf out syms⟩ := by
          rw [hrrAd, processSymlinks_spec]
        have hrrB_eq : rrB = ⟨0, false, appendItems sB2 out (symlinkRowsOf syms),
            symlinksTraceOf out syms⟩ := by
          rw [hrrBd, processSymlinks_spec]
        have hrrtr : rrA.tr = rrB.tr := by
          rw [hrrA_eq, hrrB_eq]
        have hASy : ∀ q, agreeAt q s₁ s₂ → agreeAt q rrA.st rrB.st := by
          intro q h
          rw [hrrA_eq, hrrB_eq]
          exact agreeAt_appendItems out _ h8out q (hA8 q h)
        have hSyout : agreeAt out rrA.st rrB.st := hASy out hout
        refine ⟨by trivial, ?_, ?_, ?_⟩
        · rw [hFret, hDret]
        · rw [hFret, hFtr, hDret, hDtr, hrrtr]
        · intro q h
          rw [hFret, hDret]
          exact agreeAt_appendItem out _ (agreeAt_appendItem out _ hSyout out hSyout) q
            (agreeAt_appendItem out _ hSyout q (hASy q h))
termination_by 3 * FSTree.size t - 1
decreasing_by
  exact dec_body_to_dirs _ _

/-- The directories loop behaves identically on states that agree under the
mirror path. -/
theorem processDirs_agree (ds : List (Entry × FSTree))
    (src_path dest_path dest_path_root : List String) (isl : Bool) (d : Int)
    (s₁ s₂ : DestState)
    (H : ∀ q, (dest_path ++ [pathName src_path]) <+: q → agreeAt q s₁ s₂) :
    (processDirs ds src_path dest_path dest_path_root isl d s₁).ret =
      (processDirs ds src_path dest_path dest_path_root isl d s₂).ret ∧
    (processDirs ds src_path dest_path dest_path_root isl d s₁).tr =
      (processDirs ds src_path dest_path dest_path_root isl d s₂).tr ∧
    ∀ q, agreeAt q s₁ s₂ →
      agreeAt q (processDirs ds src_path dest_path dest_path_root isl d s₁).st
        (processDirs ds src_path dest_path dest_path_root isl d s₂).st :=
  match ds with
  | [] => by
    simp only [processDirs]
    exact ⟨by trivial, by trivial, fun q h => h⟩
  | (e, sub) :: rest => by
    simp only [processDirs]
    by_cases hfail : e.procFails = true
    · simp only [if_pos hfail]
      obtain ⟨ihret, ihtr, ihpres⟩ := processDirs_agree rest src_path dest_path dest_path_root
        isl d s₁ s₂ H
      exact ⟨ihret, by rw [ihtr], ihpres⟩
    · simp only [if_neg hfail]
      obtain ⟨hcr, hcret, hctr, hcpres⟩ := get_snapshot_agree sub (src_path ++ [e.name])
        (dest_path ++ [pathName src_path]) dest_path_root isl (d - 1) s₁ s₂
        (fun q hq => H q (List.IsPrefix.trans ⟨[pathName (src_path ++ [e.name])], rfl⟩ hq))
      by_cases hrc2 : (get_snapshot sub (src_path ++ [e.name])
          (dest_path ++ [pathName src_path]) dest_path_root isl (d - 1) s₂).raised = true
      · have hrc1 : (get_snapshot sub (src_path ++ [e.name])
            (dest_path ++ [pathName src_path]) dest_path_root isl (d - 1) s₁).raised = true := by
          rw [hcr]
          exact hrc2
        simp only [if_pos hrc1, if_pos hrc2]
        obtain ⟨ihret, ihtr, ihpres⟩ := processDirs_agree rest src_path dest_path
          dest_path_root isl d _ _ (fun q hq => hcpres q (H q hq))
        exact ⟨ihret, by rw [hctr, ihtr], fun q h => ihpres q (hcpres q h)⟩
      · have hrc1 : ¬(get_snapshot sub (src_path ++ [e.name])
            (dest_path ++ [pathName src_path]) dest_path_root isl (d - 1) s₁).raised = true := by
          rw [hcr]
          exact hrc2
        simp only [if_neg hrc1, if_neg hrc2]
        rw [hcret]
        have hcout : agreeAt (dest_path ++ [pathName src_path] ++ [pathName src_path ++ ".html"])
            (get_snapshot sub (src_path ++ [e.name]) (dest_path ++ [pathName src_path])
              dest_path_root isl (d - 1) s₁).st
            (get_snapshot sub (src_path ++ [e.name]) (dest_path ++ [pathName src_path])
              dest_path_root isl (d - 1) s₂).st :=
          hcpres _ (H _ ⟨[pathName src_path ++ ".html"], rfl⟩)
        have hRow : ∀ q, agreeAt q s₁ s₂ → agreeAt q
            ((get_snapshot sub (src_path ++ [e.name]) (dest_path ++ [pathName src_path])
                dest_path_root isl (d - 1) s₁).st.appendItem
              (dest_path ++ [pathName src_path] ++ [pathName src_path ++ ".html"])
              (DocItem.dirRow e.name (get_snapshot sub (src_path ++ [e.name])
                (dest_path ++ [pathName src_path]) dest_path_root isl (d - 1) s₂).ret))
            ((get_snapshot sub (src_path ++ [e.name]) (dest_path ++ [pathName src_path])
                dest_path_root isl (d - 1) s₂).st.appendItem
              (dest_path ++ [pathName src_path] ++ [pathName src_path ++ ".html"])
              (DocItem.dirRow e.name (get_snapshot sub (src_path ++ [e.name])
                (dest_path ++ [pathName src_path]) dest_path_root isl (d - 1) s₂).ret)) :=
          fun q h => agreeAt_appendItem _ _ hcout q (hcpres q h)
        obtain ⟨ihret, ihtr, ihpres⟩ := processDirs_agree rest src_path dest_path
          dest_path_root isl d _ _ (fun q hq => hRow q (H q hq))
        exact ⟨by rw [ihret], by rw [hctr, ihtr], fun q h => ihpres q (hRow q h)⟩
termination_by 3 * sizeList ds + 1
decreasing_by
  all_goals first
    | exact dec_dirs_to_get _ _ _
    | exact dec_dirs_to_rest _ _ _
end

/-! ### Helper lemmas for the claim theorems -/

/-- After the level reset, two well-formed states agree everywhere under the
mirror directory, whatever they held there before. -/
theorem resetLevel_agree_under {s₁ s₂ : DestState} (hwf₁ : WFStateB s₁ = true)
    (hwf₂ : WFStateB s₂ = true) {p : List String} (hp : p ≠ []) (x : String) :
    ∀ q, p <+: q →
      agreeAt q (resetLevel s₁ p (p ++ [x])).1 (resetLevel s₂ p (p ++ [x])).1 := by
  intro q hq
  constructor
  · rw [resetLevel_fileAt hwf₁ hp x q, resetLevel_fileAt hwf₂ hp x q]
    by_cases hqo : q = p ++ [x]
    · rw [if_pos hqo, if_pos hqo]
    · rw [if_neg hqo, if_neg hqo, if_pos hq, if_pos hq]
  · rw [resetLevel_isDirAt hwf₁ hp x q, resetLevel_isDirAt hwf₂ hp x q]
    by_cases hqp : q ∈ pathPrefixes p
    · rw [if_pos hqp, if_pos hqp]
    · rw [if_neg hqp, if_neg hqp, if_pos hq, if_pos hq]

/-- The trace of a completing call starts with the reset actions (an
`rmtree` when the mirror directory pre-exists, then `mkdir` and `touch`),
followed by the trace of the body. -/
theorem get_snapshot_tr_reset (t : FSTree) (src_path dest_path dest_path_root : List String)
    (isl : Bool) (d : Int) (st : DestState)
    (hnone : st.fileAt (dest_path ++ [pathName src_path]) = none) :
    (get_snapshot t src_path dest_path dest_path_root isl d st).tr =
      (if st.existsAt (dest_path ++ [pathName src_path]) then
        [Action.rmtreeAct (dest_path ++ [pathName src_path])] else []) ++
      [Action.mkdirAct (dest_path ++ [pathName src_path]),
       Action.touchAct (dest_path ++ [pathName src_path] ++ [pathName src_path ++ ".html"])] ++
      (snapshotBody t src_path dest_path dest_path_root isl d
        (resetLevel st (dest_path ++ [pathName src_path])
          (dest_path ++ [pathName src_path] ++ [pathName src_path ++ ".html"])).1).tr := by
  have h1 : (st.fileAt (dest_path ++ [pathName src_path])).isSome = false := by
    rw [hnone]
    rfl
  simp only [get_snapshot, h1, Bool.false_eq_true, if_false]
  rw [resetLevel_tr]

/-- At the destination root the body writes the one-line marker document and
returns the sentinel, whatever tree the listing collaborator would report. -/
theorem snapshotBody_guard_eq (t : FSTree) (src_path dest_path dest_path_root : List String)
    (isl : Bool) (d : Int) (st : DestState) (hguard : src_path = dest_path_root) :
    snapshotBody t src_path dest_path dest_path_root isl d st =
      ⟨-1, false,
        st.setFile (dest_path ++ [pathName src_path] ++ [pathName src_path ++ ".html"])
          [DocItem.selfRefMarker],
        [Action.writeDocAct (dest_path ++ [pathName src_path] ++ [pathName src_path ++ ".html"])
          DocItem.selfRefMarker]⟩ := by
  cases t with
  | node o =>
    cases o with
    | none => simp only [snapshotBody, if_pos hguard]
    | some l => simp only [snapshotBody, if_pos hguard]

theorem getLast_append_singleton {α : Type} (l : List α) (a : α) :
    (l ++ [a]).getLast? = some a := by
  simp

/-- Every action of the files loop is an error log or an append to the
report file. -/
theorem filesTraceOf_shape (o : List String) (fs : List (Entry × FSTree)) :
    ∀ a ∈ filesTraceOf o fs,
      (∃ m, a = Action.logErrorAct m) ∨ ∃ it, a = Action.appendDocAct o it := by
  induction fs with
  | nil => intro a ha; cases ha
  | cons p rest ih =>
    obtain ⟨e, t⟩ := p
    intro a ha
    rcases List.mem_cons.mp ha with h | h
    · by_cases hf : e.procFails = true
      · rw [h, if_pos hf]
        exact Or.inl ⟨e.name, rfl⟩
      · rw [h, if_neg hf]
        exact Or.inr ⟨DocItem.fileRow e.name e.size, rfl⟩
    · exact ih a h

/-- Every action of the symlinks loop is an error log or an append to the
report file. -/
theorem symlinksTraceOf_shape (o : List String) (fs : List (Entry × FSTree)) :
    ∀ a ∈ symlinksTraceOf o fs,
      (∃ m, a = Action.logErrorAct m) ∨ ∃ it, a = Action.appendDocAct o it := by
  induction fs with
  | nil => intro a ha; cases ha
  | cons p rest ih =>
    obtain ⟨e, t⟩ := p
    intro a ha
    rcases List.mem_cons.mp ha with h | h
    · by_cases hf : e.procFails = true
      · rw [h, if_pos hf]
        exact Or.inl ⟨e.name, rfl⟩
      · rw [h, if_neg hf]
        exact Or.inr ⟨DocItem.symlinkRow e.name e.resolvedName, rfl⟩
    · exact ih a h

theorem mkdir_not_mem_filesTraceOf (o : List String) (fs : List (Entry × FSTree))
    (p : List String) : Action.mkdirAct p ∉ filesTraceOf o fs := by
  intro h
  rcases filesTraceOf_shape o fs _ h with ⟨m, hm⟩ | ⟨it, hm⟩ <;> cases hm

theorem mkdir_not_mem_symlinksTraceOf (o : List String) (fs : List (Entry × FSTree))
    (p : List String) : Action.mkdirAct p ∉ symlinksTraceOf o fs := by
  intro h
  rcases symlinksTraceOf_shape o fs _ h with ⟨m, hm⟩ | ⟨it, hm⟩ <;> cases hm

/-- A failing file entry is logged by the files loop. -/
theorem logError_mem_filesTraceOf {e : Entry} {tsub : FSTree} {fs : List (Entry × FSTree)}
    (o : List String) (hm : (e, tsub) ∈ fs) (hf : e.procFails = true) :
    Action.logErrorAct e.name ∈ filesTraceOf o fs := by
  induction fs with
  | nil => cases hm
  | cons p rest ih =>
    obtain ⟨a, t⟩ := p
    rcases List.mem_cons.mp hm with h | h
    · obtain ⟨rfl, rfl⟩ := Prod.mk.injEq .. |>.mp h.symm
      simp only [filesTraceOf, if_pos hf]
      exact List.mem_cons_self _ _
    · exact List.mem_cons_of_mem _ (ih h)

/-- A failing symlink entry is logged by the symlinks loop. -/
theorem logError_mem_symlinksTraceOf {e : Entry} {tsub : FSTree} {fs : List (Entry × FSTree)}
    (o : List String) (hm : (e, tsub) ∈ fs) (hf : e.procFails = true) :
    Action.logErrorAct e.name ∈ symlinksTraceOf o fs := by
  induction fs with
  | nil => cases hm
  | cons p rest ih =>
    obtain ⟨a, t⟩ := p
    rcases List.mem_cons.mp hm with h | h
    · obtain ⟨rfl, rfl⟩ := Prod.mk.injEq .. |>.mp h.symm
      simp only [symlinksTraceOf, if_pos hf]
      exact List.mem_cons_self _ _
    · exact List.mem_cons_of_mem _ (ih h)

/-- A failing directory entry is logged by the directories loop, from any
destination state. -/
theorem logError_mem_processDirs {e : Entry} {tsub : FSTree} {ds : List (Entry × FSTree)}
    (hm : (e, tsub) ∈ ds) (hf : e.procFails = true)
    (src_path dest_path dest_path_root : List String) (isl : Bool) (d : Int) :
    ∀ st, Action.logErrorAct e.name ∈
      (processDirs ds src_path dest_path dest_path_root isl d st).tr := by
  induction ds with
  | nil => cases hm
  | cons p rest ih =>
    obtain ⟨a, t⟩ := p
    intro st
    rcases List.mem_cons.mp hm with h | h
    · obtain ⟨rfl, rfl⟩ := Prod.mk.injEq .. |>.mp h.symm
      simp only [processDirs, if_pos hf]
      exact List.mem_cons_self _ _
    · simp only [processDirs]
      by_cases hfa : a.procFails = true
      · rw [if_pos hfa]
        exact List.mem_cons_of_mem _ (ih h st)
      · rw [if_neg hfa]
        by_cases hr : (get_snapshot t (src_path ++ [a.name]) (dest_path ++ [pathName src_path])
            dest_path_root isl (d - 1) st).raised = true
        · rw [if_pos hr]
          exact List.mem_append.mpr (Or.inr (List.mem_cons_of_mem _ (ih h _)))
        · rw [if_neg hr]
          exact List.mem_append.mpr (Or.inr (List.mem_cons_of_mem _ (ih h _)))

theorem mem_ite_append {a : Action} {c₁ c₂ : Prop} [Decidable c₁] [Decidable c₂]
    {l x y : List Action} (h : a ∈ l) :
    a ∈ (if c₁ then l ++ x else if c₂ then l ++ y else l) := by
  split_ifs
  · exact List.mem_append.mpr (Or.inl h)
  · exact List.mem_append.mpr (Or.inl h)
  · exact h

/-- Every action of the files loop appears in the trace of the body. -/
theorem files_trace_sub_body (contents : List (Entry × FSTree))
    (src_path dest_path dest_path_root : List String) (isl : Bool) (d : Int) (st : DestState)
    (hguard : ¬src_path = dest_path_root) {a : Action}
    (ha : a ∈ filesTraceOf (dest_path ++ [pathName src_path] ++ [pathName src_path ++ ".html"])
      (categorize (sortContents contents)).2.1) :
    a ∈ (snapshotBody (FSTree.node (some contents)) src_path dest_path dest_path_root
      isl d st).tr := by
  simp only [snapshotBody, if_neg hguard]
  rw [processFiles_spec]
  refine List.mem_append.mpr (Or.inl (List.mem_append.mpr (Or.inl (List.mem_append.mpr
    (Or.inl (List.mem_append.mpr (Or.inl ?_)))))))
  refine mem_ite_append ?_
  refine List.mem_append.mpr (Or.inl (List.mem_append.mpr (Or.inl (List.mem_append.mpr
    (Or.inr ?_)))))
  exact ha

/-- An action produced by the directories loop from every start state
appears in the trace of the body. -/
theorem dirs_trace_sub_body (contents : List (Entry × FSTree))
    (src_path dest_path dest_path_root : List String) (isl : Bool) (d : Int) (st : DestState)
    (hguard : ¬src_path = dest_path_root) {a : Action}
    (ha : ∀ s, a ∈ (processDirs (effectiveDirs (categorize (sortContents contents)).2.2 d)
      src_path dest_path dest_path_root isl d s).tr) :
    a ∈ (snapshotBody (FSTree.node (some contents)) src_path dest_path dest_path_root
      isl d st).tr := by
  simp only [snapshotBody, if_neg hguard]
  exact List.mem_append.mpr (Or.inl (List.mem_append.mpr (Or.inl (List.mem_append.mpr
    (Or.inl (List.mem_append.mpr (Or.inr (ha _))))))))

/-- When symlinks are not ignored, every action of the symlinks loop appears
in the trace of the body. -/
theorem syms_trace_sub_body (contents : List (Entry × FSTree))
    (src_path dest_path dest_path_root : List String) (d : Int) (st : DestState)
    (hguard : ¬src_path = dest_path_root) {a : Action}
    (ha : a ∈ symlinksTraceOf
      (dest_path ++ [pathName src_path] ++ [pathName src_path ++ ".html"])
      (categorize (sortContents contents)).1) :
    a ∈ (snapshotBody (FSTree.node (some contents)) src_path dest_path dest_path_root
      false d st).tr := by
  simp only [snapshotBody, if_neg hguard, Bool.false_eq_true, if_false]
  rw [processSymlinks_spec]
  refine List.mem_append.mpr (Or.inl (List.mem_append.mpr (Or.inr ?_)))
  exact List.mem_append.mpr (Or.inl (List.mem_append.mpr (Or.inr ha)))

/-- With the recursion depth exhausted, the body performs no `mkdir` at all:
no subdirectory mirror is ever created. -/
theorem body_no_mkdir_d0 (contents : List (Entry × FSTree))
    (src_path dest_path dest_path_root : List String) (isl : Bool) (s : DestState)
    (hguard : ¬src_path = dest_path_root) (p : List String) :
    Action.mkdirAct p ∉
      (snapshotBody (FSTree.node (some contents)) src_path dest_path dest_path_root
        isl 0 s).tr := by
  intro hp
  simp only [snapshotBody, if_neg hguard] at hp
  rw [processFiles_spec] at hp
  have hnil : effectiveDirs (categorize (sortContents contents)).2.2 (0 : Int) = [] := by
    by_cases hde : (categorize (sortContents contents)).2.2.isEmpty = true
    · rw [effectiveDirs_of_isEmpty hde]
      exact List.isEmpty_iff.mp hde
    · exact effectiveDirs_of_zero hde rfl
  rw [hnil] at hp
  simp only [processDirs] at hp
  split_ifs at hp <;>
    simp_all [List.mem_append, mkdir_not_mem_filesTraceOf, mkdir_not_mem_symlinksTraceOf,
      processSymlinks_spec]

/-- With the recursion depth exhausted, the only directory ever created by a
call is its own mirror level. -/
theorem mkdir_mem_get_d0 (contents : List (Entry × FSTree))
    (src_path dest_path dest_path_root : List String) (isl : Bool) (st : DestState)
    (hnone : st.fileAt (dest_path ++ [pathName src_path]) = none)
    (hguard : ¬src_path = dest_path_root) :
    ∀ p, Action.mkdirAct p ∈
        (get_snapshot (FSTree.node (some contents)) src_path dest_path dest_path_root
          isl 0 st).tr →
      p = dest_path ++ [pathName src_path] := by
  intro p hp
  rw [get_snapshot_tr_reset _ _ _ _ _ _ _ hnone] at hp
  rcases List.mem_append.mp hp with h | h
  · rcases List.mem_append.mp h with h2 | h2
    · by_cases hex : st.existsAt (dest_path ++ [pathName src_path]) = true
      · rw [if_pos hex] at h2
        simp at h2
      · rw [if_neg hex] at h2
        cases h2
    · rcases List.mem_cons.mp h2 with h3 | h3
      · injection h3
      · rcases List.mem_cons.mp h3 with h4 | h4
        · cases h4
        · cases h4
  · exact absurd h (body_no_mkdir_d0 contents src_path dest_path dest_path_root isl _ hguard p)

/-- Rows of the files table are file rows. -/
theorem dirRow_not_mem_fileRowsOf (fs : List (Entry × FSTree)) (n : String) (s : Int) :
    DocItem.dirRow n s ∉ fileRowsOf fs := by
  intro h
  simp only [fileRowsOf, List.mem_map] at h
  obtain ⟨x, hx, he⟩ := h
  cases he

/-- Rows of the symlinks table are symlink rows. -/
theorem dirRow_not_mem_symlinkRowsOf (fs : List (Entry × FSTree)) (n : String) (s : Int) :
    DocItem.dirRow n s ∉ symlinkRowsOf fs := by
  intro h
  simp only [symlinkRowsOf, List.mem_map] at h
  obtain ⟨x, hx, he⟩ := h
  cases he

/-- The sort of the listing leaves it sorted by name. -/
theorem sorted_names_sortContents (l : List (Entry × FSTree)) :
    List.Sorted (fun a b : Entry × FSTree => a.1.name ≤ b.1.name) (sortContents l) := by
  haveI h1 : IsTotal (Entry × FSTree) (fun a b => a.1.name ≤ b.1.name) :=
    ⟨fun a b => le_total a.1.name b.1.name⟩
  haveI h2 : IsTrans (Entry × FSTree) (fun a b => a.1.name ≤ b.1.name) :=
    ⟨fun a b c hab hbc => le_trans hab hbc⟩
  exact List.sorted_insertionSort _ l

/-- Two name-sorted listings that are permutations of each other and have
distinct names are equal. -/
theorem eq_of_perm_sorted_nodup_names : ∀ {l₁ l₂ : List (Entry × FSTree)}, l₁.Perm l₂ →
    List.Sorted (fun a b : Entry × FSTree => a.1.name ≤ b.1.name) l₁ →
    List.Sorted (fun a b : Entry × FSTree => a.1.name ≤ b.1.name) l₂ →
    (l₁.map fun e => e.1.name).Nodup → l₁ = l₂ := by
  intro l₁
  induction l₁ with
  | nil =>
    intro l₂ hperm _ _ _
    exact (List.Perm.eq_nil hperm.symm).symm
  | cons a t₁ ih =>
    intro l₂ hperm hs₁ hs₂ hnd
    cases l₂ with
    | nil => cases hperm.eq_nil
    | cons b t₂ =>
      have hnd2 : (a.1.name :: t₁.map fun e => e.1.name).Nodup := by
        rw [List.map_cons] at hnd
        exact hnd
      have hndh : a.1.name ∉ t₁.map fun e => e.1.name := (List.nodup_cons.mp hnd2).1
      have hab : a = b := by
        by_contra hne
        have hamem : a ∈ b :: t₂ := hperm.subset (List.mem_cons_self a t₁)
        have hbmem : b ∈ a :: t₁ := hperm.symm.subset (List.mem_cons_self b t₂)
        have ha2 : a ∈ t₂ := by
          rcases List.mem_cons.mp hamem with h | h
          · exact absurd h hne
          · exact h
        have hb1 : b ∈ t₁ := by
          rcases List.mem_cons.mp hbmem with h | h
          · exact absurd h.symm hne
          · exact h
        have h1 : a.1.name ≤ b.1.name := (List.sorted_cons.mp hs₁).1 b hb1
        have h2 : b.1.name ≤ a.1.name := (List.sorted_cons.mp hs₂).1 a ha2
        have heq : b.1.name = a.1.name := le_antisymm h2 h1
        exact hndh (heq ▸ List.mem_map_of_mem (fun e => e.1.name) hb1)
      subst hab
      have hperm2 : t₁.Perm t₂ := (List.perm_cons a).mp hperm
      rw [ih hperm2 (List.sorted_cons.mp hs₁).2 (List.sorted_cons.mp hs₂).2
        (List.nodup_cons.mp hnd2).2]

/-- On listings with distinct names, the sort is determined by the multiset
of entries: any enumeration order produces the same sorted listing. -/
theorem sortContents_perm_eq {l₁ l₂ : List (Entry × FSTree)} (h : l₁.Perm l₂)
    (hnd : (l₁.map fun e => e.1.name).Nodup) : sortContents l₁ = sortContents l₂ := by
  refine eq_of_perm_sorted_nodup_names ?_ (sorted_names_sortContents l₁)
    (sorted_names_sortContents l₂) ?_
  · exact (List.perm_insertionSort _ l₁).trans (h.trans (List.perm_insertionSort _ l₂).symm)
  · have hperm : (sortContents l₁).Perm l₁ := List.perm_insertionSort _ l₁
    exact ((hperm.map fun e => e.1.name).nodup_iff).mpr hnd

/-- The body depends on the listing only through its sorted form. -/
theorem snapshotBody_sort_eq {l₁ l₂ : List (Entry × FSTree)}
    (src_path dest_path dest_path_root : List String) (isl : Bool) (d : Int) (s : DestState)
    (h : sortContents l₁ = sortContents l₂) :
    snapshotBody (FSTree.node (some l₁)) src_path dest_path dest_path_root isl d s =
      snapshotBody (FSTree.node (some l₂)) src_path dest_path dest_path_root isl d s := by
  by_cases hguard : src_path = dest_path_root
  · rw [snapshotBody_guard_eq _ _ _ _ _ _ _ hguard, snapshotBody_guard_eq _ _ _ _ _ _ _ hguard]
  · simp only [snapshotBody, if_neg hguard]
    rw [h]

/-- A whole call depends on the listing only through its sorted form. -/
theorem get_snapshot_sort_eq {l₁ l₂ : List (Entry × FSTree)}
    (src_path dest_path dest_path_root : List String) (isl : Bool) (d : Int) (st : DestState)
    (h : sortContents l₁ = sortContents l₂) :
    get_snapshot (FSTree.node (some l₁)) src_path dest_path dest_path_root isl d st =
      get_snapshot (FSTree.node (some l₂)) src_path dest_path dest_path_root isl d st := by
  simp only [get_snapshot]
  split
  · rfl
  · rw [snapshotBody_sort_eq _ _ _ _ _ _ h]

/-! ### The claims -/

/-- C1 (amended): the classification loop (lines 72-79) sends every listed
entry into exactly one of the symlinks, files or directories buckets, by
the filesystem type tests `entry.is_dir()` then `entry.is_symlink()`; an
entry observed as a symlink and not as a directory is classified as a
symlink and is never counted as a file nor as a directory.  Amendment:
`Path.is_dir()` follows symlinks, so a symlink whose target is a directory
is observed with `is_dir = true` and is classified into the directories
bucket (tested first), recursed into and counted — the original
"never also counted as a directory even if it resolves to one" fails for
such entries. -/
theorem C1_classification (l : List (Entry × FSTree)) :
    ((categorize l).1 = l.filter fun p => !p.1.is_dir && p.1.is_symlink) ∧
    ((categorize l).2.1 = l.filter fun p => !p.1.is_dir && !p.1.is_symlink) ∧
    ((categorize l).2.2 = l.filter fun p => p.1.is_dir) ∧
    (∀ p ∈ l,
      (p ∈ (categorize l).1 ∧ p ∉ (categorize l).2.1 ∧ p ∉ (categorize l).2.2) ∨
      (p ∉ (categorize l).1 ∧ p ∈ (categorize l).2.1 ∧ p ∉ (categorize l).2.2) ∨
      (p ∉ (categorize l).1 ∧ p ∉ (categorize l).2.1 ∧ p ∈ (categorize l).2.2)) ∧
    (∀ p ∈ l, p.1.is_symlink = true → p.1.is_dir = false →
      p ∈ (categorize l).1 ∧ p ∉ (categorize l).2.1 ∧ p ∉ (categorize l).2.2) := by
  refine ⟨categorize_symlinks l, categorize_files l, categorize_dirs l, ?_, ?_⟩
  · intro p hp
    by_cases hd : p.1.is_dir = true
    · refine Or.inr (Or.inr ⟨?_, ?_, ?_⟩)
      · rw [categorize_symlinks]
        simp [List.mem_filter, hd]
      · rw [categorize_files]
        simp [List.mem_filter, hd]
      · rw [categorize_dirs]
        exact List.mem_filter.mpr ⟨hp, by simp [hd]⟩
    · by_cases hs : p.1.is_symlink = true
      · refine Or.inl ⟨?_, ?_, ?_⟩
        · rw [categorize_symlinks]
          exact List.mem_filter.mpr ⟨hp, by simp [hd, hs]⟩
        · rw [categorize_files]
          simp [List.mem_filter, hs]
        · rw [categorize_dirs]
          simp [List.mem_filter, hd]
      · refine Or.inr (Or.inl ⟨?_, ?_, ?_⟩)
        · rw [categorize_symlinks]
          simp [List.mem_filter, hs]
        · rw [categorize_files]
          exact List.mem_filter.mpr ⟨hp, by simp [hd, hs]⟩
        · rw [categorize_dirs]
          simp [List.mem_filter, hd]
  · intro p hp hs hd
    refine ⟨?_, ?_, ?_⟩
    · rw [categorize_symlinks]
      exact List.mem_filter.mpr ⟨hp, by simp [hd, hs]⟩
    · rw [categorize_files]
      simp [List.mem_filter, hs]
    · rw [categorize_dirs]
      simp [List.mem_filter, hd]

/-- C1 witness: a symlink observed as not-a-directory lands in the symlinks
bucket only. -/
theorem C1_classification_witness :
    ((⟨"s", false, true, 4, false, "t"⟩ : Entry), FSTree.node (some [])) ∈
      [((⟨"s", false, true, 4, false, "t"⟩ : Entry), FSTree.node (some []))] ∧
    (⟨"s", false, true, 4, false, "t"⟩ : Entry).is_symlink = true ∧
    (⟨"s", false, true, 4, false, "t"⟩ : Entry).is_dir = false ∧
    (((⟨"s", false, true, 4, false, "t"⟩ : Entry), FSTree.node (some [])) ∈
        (categorize [((⟨"s", false, true, 4, false, "t"⟩ : Entry),
          FSTree.node (some []))]).1 ∧
      ((⟨"s", false, true, 4, false, "t"⟩ : Entry), FSTree.node (some [])) ∉
        (categorize [((⟨"s", false, true, 4, false, "t"⟩ : Entry),
          FSTree.node (some []))]).2.1 ∧
      ((⟨"s", false, true, 4, false, "t"⟩ : Entry), FSTree.node (some [])) ∉
        (categorize [((⟨"s", false, true, 4, false, "t"⟩ : Entry),
          FSTree.node (some []))]).2.2) :=
  ⟨List.mem_singleton.mpr rfl, rfl, rfl,
    (C1_classification [((⟨"s", false, true, 4, false, "t"⟩ : Entry),
      FSTree.node (some []))]).2.2.2.2 _ (List.mem_singleton.mpr rfl) rfl rfl⟩

/-- C1 counterexample: an entry observed as a symlink whose target is a
directory holding one 7-byte file has `is_dir = true` (as `Path.is_dir()`
follows symlinks), is classified into the directories bucket, gets a row
in the directories table, and contributes the 7 bytes of its target
subtree to the recursive total — refuting "a symlink is never counted as
a file or a directory and never contributes to the size total regardless
of what it resolves to". -/
theorem C1_classification_counterexample :
    (⟨"s", true, true, 0, false, "tgt"⟩ : Entry).is_symlink = true ∧
    ((⟨"s", true, true, 0, false, "tgt"⟩ : Entry),
      FSTree.node (some [(⟨"f", false, false, 7, false, ""⟩, FSTree.node (some []))])) ∈
      (categorize [((⟨"s", true, true, 0, false, "tgt"⟩ : Entry),
        FSTree.node (some [(⟨"f", false, false, 7, false, ""⟩, FSTree.node (some []))]))]).2.2 ∧
    snapSize (FSTree.node (some [((⟨"s", true, true, 0, false, "tgt"⟩ : Entry),
        FSTree.node (some [(⟨"f", false, false, 7, false, ""⟩, FSTree.node (some []))]))]))
      ["a"] ["dest"] 5 = 7 ∧
    DocItem.dirRow "s" 7 ∈ docOfListing [((⟨"s", true, true, 0, false, "tgt"⟩ : Entry),
        FSTree.node (some [(⟨"f", false, false, 7, false, ""⟩, FSTree.node (some []))]))]
      ["a"] ["dest"] false 5 := by
  have h3 : ∀ d2 : Int, snapSize (FSTree.node (some [(⟨"f", false, false, 7, false, ""⟩,
      FSTree.node (some []))])) ["a", "s"] ["dest"] d2 = 7 := by
    intro d2
    rw [snapSize_some (by decide)]
    rw [show (categorize (sortContents [((⟨"f", false, false, 7, false, ""⟩ : Entry),
      FSTree.node (some []))])).2.1 = [((⟨"f", false, false, 7, false, ""⟩ : Entry),
      FSTree.node (some []))] from rfl]
    rw [show effectiveDirs (categorize (sortContents [((⟨"f", false, false, 7, false, ""⟩
      : Entry), FSTree.node (some []))])).2.2 d2 = [] from rfl]
    simp only [dirsSize]
    simp [filesRet]
  have h1 : snapSize (FSTree.node (some [((⟨"s", true, true, 0, false, "tgt"⟩ : Entry),
      FSTree.node (some [(⟨"f", false, false, 7, false, ""⟩, FSTree.node (some []))]))]))
      ["a"] ["dest"] 5 = 7 := by
    rw [snapSize_some (by decide)]
    rw [show (categorize (sortContents [((⟨"s", true, true, 0, false, "tgt"⟩ : Entry),
      FSTree.node (some [(⟨"f", false, false, 7, false, ""⟩,
        FSTree.node (some []))]))])).2.1 = [] from rfl]
    rw [show effectiveDirs (categorize (sortContents [((⟨"s", true, true, 0, false, "tgt"⟩
      : Entry), FSTree.node (some [(⟨"f", false, false, 7, false, ""⟩,
        FSTree.node (some []))]))])).2.2 5 =
      [((⟨"s", true, true, 0, false, "tgt"⟩ : Entry),
        FSTree.node (some [(⟨"f", false, false, 7, false, ""⟩,
          FSTree.node (some []))]))] from rfl]
    simp only [dirsSize]
    rw [if_neg (by decide)]
    have := h3 (5 - 1)
    simp_all [filesRet]
  refine ⟨rfl, List.mem_singleton.mpr rfl, h1, ?_⟩
  rw [docOfListing_eq]
  refine List.mem_append.mpr (Or.inl (List.mem_append.mpr (Or.inl (List.mem_append.mpr
    (Or.inl (List.mem_append.mpr (Or.inr ?_)))))))
  rw [if_neg (by decide), if_neg (by decide)]
  simp only [dirRowsOf, List.mem_map, List.mem_filter, Bool.and_eq_true, Bool.not_eq_true']
  exact ⟨(⟨"s", true, true, 0, false, "tgt"⟩,
    FSTree.node (some [(⟨"f", false, false, 7, false, ""⟩, FSTree.node (some []))])),
    ⟨List.mem_singleton.mpr rfl, rfl, by decide⟩, by exact (h3 4).symm ▸ rfl⟩

/-- C2: for a listable directory that is not the destination root, the
value returned (and written in the footer) equals the sum of the byte
sizes of its non-failing immediate files plus the recursive totals of its
processed immediate subdirectories (entries that fail in isolation are
skipped by `filesRet` and `dirsSize`), and the report document ends with a
footer item carrying exactly that total. -/
theorem C2_footer_total (contents : List (Entry × FSTree))
    (src_path dest_path dest_path_root : List String) (isl : Bool) (d : Int) (st : DestState)
    (hwf : WFStateB st = true)
    (htwf : FSTree.wfB (FSTree.node (some contents)) = true)
    (hnone : st.fileAt (dest_path ++ [pathName src_path]) = none)
    (hguard : ¬src_path = dest_path_root) :
    (get_snapshot (FSTree.node (some contents)) src_path dest_path dest_path_root
        isl d st).ret =
      filesRet (categorize (sortContents contents)).2.1 +
        dirsSize (effectiveDirs (categorize (sortContents contents)).2.2 d)
          src_path dest_path_root d ∧
    (get_snapshot (FSTree.node (some contents)) src_path dest_path dest_path_root
        isl d st).st.fileAt
      (dest_path ++ [pathName src_path] ++ [pathName src_path ++ ".html"]) =
      some (docOfListing contents src_path dest_path_root isl d) ∧
    (docOfListing contents src_path dest_path_root isl d).getLast? =
      some (DocItem.tableFooter
        (get_snapshot (FSTree.node (some contents)) src_path dest_path dest_path_root
          isl d st).ret) := by
  obtain ⟨hr, hret, hdoc, hfp, hD, hwf2⟩ :=
    get_snapshot_spec (FSTree.node (some contents)) src_path dest_path dest_path_root
      isl d st hwf htwf hnone
  refine ⟨?_, ?_, ?_⟩
  · rw [hret, snapSize_some hguard]
  · rw [hdoc, docOf_some hguard]
  · rw [hret, docOfListing_eq]
    exact getLast_append_singleton _ _

/-- C3: when the source path equals the original destination root, the call
returns the sentinel -1 (not a byte count), writes the one-line
self-reference marker as the whole report for that level, and performs no
listing and no recursion: after the level reset its trace holds exactly the
single marker write, whatever the listing collaborator would have
reported. -/
theorem C3_self_reference_guard (t : FSTree)
    (src_path dest_path dest_path_root : List String) (isl : Bool) (d : Int) (st : DestState)
    (hnone : st.fileAt (dest_path ++ [pathName src_path]) = none)
    (hguard : src_path = dest_path_root) :
    (get_snapshot t src_path dest_path dest_path_root isl d st).ret = -1 ∧
    (get_snapshot t src_path dest_path dest_path_root isl d st).raised = false ∧
    (get_snapshot t src_path dest_path dest_path_root isl d st).st.fileAt
      (dest_path ++ [pathName src_path] ++ [pathName src_path ++ ".html"]) =
      some [DocItem.selfRefMarker] ∧
    (get_snapshot t src_path dest_path dest_path_root isl d st).tr =
      (resetLevel st (dest_path ++ [pathName src_path])
        (dest_path ++ [pathName src_path] ++ [pathName src_path ++ ".html"])).2 ++
      [Action.writeDocAct (dest_path ++ [pathName src_path] ++ [pathName src_path ++ ".html"])
        DocItem.selfRefMarker] := by
  have h1 : (st.fileAt (dest_path ++ [pathName src_path])).isSome = false := by
    rw [hnone]
    rfl
  simp only [get_snapshot, h1, Bool.false_eq_true, if_false]
  rw [snapshotBody_guard_eq _ _ _ _ _ _ _ hguard]
  refine ⟨by trivial, by trivial, ?_, by trivial⟩
  rw [fileAt_setFile, if_pos rfl]

/-- C4: a subdirectory child whose source path equals the original
destination root makes its recursive call return the sentinel -1, and the
directories loop adds that -1 into the parent's running total: the branch
contributes exactly -1, not 0 and not a positive byte count. -/
theorem C4_sentinel_bubbles (e : Entry) (sub : FSTree) (rest : List (Entry × FSTree))
    (src_path dest_path dest_path_root : List String) (isl : Bool) (d : Int) (st : DestState)
    (hwf : WFStateB st = true)
    (hsub : ∀ p ∈ (e, sub) :: rest, FSTree.wfB p.2 = true)
    (hnodup : (((e, sub) :: rest).map fun p => p.1.name).Nodup)
    (hof : (st.fileAt (dest_path ++ [pathName src_path] ++
      [pathName src_path ++ ".html"])).isSome = true)
    (hch : ∀ p ∈ (e, sub) :: rest,
      dest_path ++ [pathName src_path] ++ [p.1.name] ≠
        dest_path ++ [pathName src_path] ++ [pathName src_path ++ ".html"] →
      st.fileAt (dest_path ++ [pathName src_path] ++ [p.1.name]) = none)
    (hguard : src_path ++ [e.name] = dest_path_root)
    (hfail : e.procFails = false)
    (hcol : collides e (pathName src_path) = false) :
    (processDirs ((e, sub) :: rest) src_path dest_path dest_path_root isl d st).ret =
      -1 + dirsSize rest src_path dest_path_root d ∧
    snapSize sub (src_path ++ [e.name]) dest_path_root (d - 1) = -1 := by
  obtain ⟨hr, hret, _, _, _, _⟩ :=
    processDirs_spec ((e, sub) :: rest) src_path dest_path dest_path_root isl d st hwf hsub
      hnodup hof hch
  refine ⟨?_, snapSize_guard hguard sub (d - 1)⟩
  rw [hret]
  simp only [dirsSize]
  rw [if_neg (by simp [hfail, hcol]), snapSize_guard hguard]

/-- C5: with the recursion depth exhausted the call does not descend: its
total counts only the immediate files, its document carries the depth-limit
marker and no directory rows, and the only directory the run ever creates
is its own mirror level; with nonzero depth the directories loop recurses
into each processed child at depth one less and adds the returned total. -/
theorem C5_depth_limit (contents : List (Entry × FSTree))
    (src_path dest_path dest_path_root : List String) (isl : Bool) (st : DestState)
    (hwf : WFStateB st = true)
    (htwf : FSTree.wfB (FSTree.node (some contents)) = true)
    (hnone : st.fileAt (dest_path ++ [pathName src_path]) = none)
    (hguard : ¬src_path = dest_path_root)
    (hdirs : (categorize (sortContents contents)).2.2.isEmpty = false) :
    (get_snapshot (FSTree.node (some contents)) src_path dest_path dest_path_root
        isl 0 st).ret = filesRet (categorize (sortContents contents)).2.1 ∧
    (get_snapshot (FSTree.node (some contents)) src_path dest_path dest_path_root
        isl 0 st).st.fileAt
      (dest_path ++ [pathName src_path] ++ [pathName src_path ++ ".html"]) =
      some (docOfListing contents src_path dest_path_root isl 0) ∧
    DocItem.depthLimitReached ∈ docOfListing contents src_path dest_path_root isl 0 ∧
    (∀ n s, DocItem.dirRow n s ∉ docOfListing contents src_path dest_path_root isl 0) ∧
    (∀ p, Action.mkdirAct p ∈
        (get_snapshot (FSTree.node (some contents)) src_path dest_path dest_path_root
          isl 0 st).tr →
      p = dest_path ++ [pathName src_path]) ∧
    (∀ d2 : Int, ¬d2 = 0 →
      (get_snapshot (FSTree.node (some contents)) src_path dest_path dest_path_root
          isl d2 st).ret =
        filesRet (categorize (sortContents contents)).2.1 +
          dirsSize (categorize (sortContents contents)).2.2 src_path dest_path_root d2) ∧
    (∀ (d2 : Int) (e : Entry) (sub : FSTree) (rest : List (Entry × FSTree)),
      e.procFails = false → collides e (pathName src_path) = false →
      dirsSize ((e, sub) :: rest) src_path dest_path_root d2 =
        snapSize sub (src_path ++ [e.name]) dest_path_root (d2 - 1) +
          dirsSize rest src_path dest_path_root d2) := by
  obtain ⟨hr, hret, hdoc, _, _, _⟩ :=
    get_snapshot_spec (FSTree.node (some contents)) src_path dest_path dest_path_root
      isl 0 st hwf htwf hnone
  have hde : ¬(categorize (sortContents contents)).2.2.isEmpty = true := by
    rw [hdirs]
    exact Bool.false_ne_true
  refine ⟨?_, ?_, ?_, ?_, ?_, ?_, ?_⟩
  · rw [hret, snapSize_some hguard, effectiveDirs_of_zero hde rfl]
    simp only [dirsSize]
    exact add_zero _
  · rw [hdoc, docOf_some hguard]
  · rw [docOfListing_eq]
    refine List.mem_append.mpr (Or.inl (List.mem_append.mpr (Or.inl (List.mem_append.mpr
      (Or.inl (List.mem_append.mpr (Or.inr ?_)))))))
    rw [if_neg hde, if_pos rfl]
    exact List.mem_singleton.mpr rfl
  · intro n s hmem
    rw [docOfListing_eq] at hmem
    split_ifs at hmem <;>
      simp_all [List.mem_append, dirRow_not_mem_fileRowsOf, dirRow_not_mem_symlinkRowsOf]
  · exact mkdir_mem_get_d0 contents src_path dest_path dest_path_root isl st hnone hguard
  · intro d2 hd2
    obtain ⟨_, hret2, _, _, _, _⟩ :=
      get_snapshot_spec (FSTree.node (some contents)) src_path dest_path dest_path_root
        isl d2 st hwf htwf hnone
    rw [hret2, snapSize_some hguard]
    by_cases hemp : (categorize (sortContents contents)).2.2.isEmpty = true
    · rw [effectiveDirs_of_isEmpty hemp]
    · rw [effectiveDirs_of_pos hemp hd2]
  · intro d2 e sub rest hfail hcol
    simp only [dirsSize]
    rw [if_neg (by simp [hfail, hcol])]

/-- C6: an entry whose processing raises is caught at the entry level and
logged with its name in the run's trace; the call still completes (it never
raises to its caller), and the failing entry contributes neither a byte
count to the totals nor a row to the document, while siblings are
unaffected. -/
theorem C6_failure_isolation (contents : List (Entry × FSTree)) (e : Entry) (tsub : FSTree)
    (src_path dest_path dest_path_root : List String) (isl : Bool) (d : Int) (st : DestState)
    (hwf : WFStateB st = true)
    (htwf : FSTree.wfB (FSTree.node (some contents)) = true)
    (hnone : st.fileAt (dest_path ++ [pathName src_path]) = none)
    (hguard : ¬src_path = dest_path_root)
    (hfail : e.procFails = true)
    (hmem : (e, tsub) ∈ (categorize (sortContents contents)).2.1 ∨
            (e, tsub) ∈ effectiveDirs (categorize (sortContents contents)).2.2 d ∨
            ((e, tsub) ∈ (categorize (sortContents contents)).1 ∧ isl = false)) :
    (get_snapshot (FSTree.node (some contents)) src_path dest_path dest_path_root
        isl d st).raised = false ∧
    Action.logErrorAct e.name ∈
      (get_snapshot (FSTree.node (some contents)) src_path dest_path dest_path_root
        isl d st).tr ∧
    (∀ rest, filesRet ((e, tsub) :: rest) = filesRet rest) ∧
    (∀ rest, dirsSize ((e, tsub) :: rest) src_path dest_path_root d =
      dirsSize rest src_path dest_path_root d) ∧
    (∀ rest, fileRowsOf ((e, tsub) :: rest) = fileRowsOf rest) ∧
    (∀ rest, dirRowsOf ((e, tsub) :: rest) src_path dest_path_root d =
      dirRowsOf rest src_path dest_path_root d) ∧
    (∀ rest, symlinkRowsOf ((e, tsub) :: rest) = symlinkRowsOf rest) := by
  obtain ⟨hr, _, _, _, _, _⟩ :=
    get_snapshot_spec (FSTree.node (some contents)) src_path dest_path dest_path_root
      isl d st hwf htwf hnone
  refine ⟨hr, ?_, ?_, ?_, ?_, ?_, ?_⟩
  · rw [get_snapshot_tr_reset _ _ _ _ _ _ _ hnone]
    refine List.mem_append.mpr (Or.inr ?_)
    rcases hmem with hmf | hmd | ⟨hms, hisl⟩
    · exact files_trace_sub_body contents src_path dest_path dest_path_root isl d _ hguard
        (logError_mem_filesTraceOf _ hmf hfail)
    · refine dirs_trace_sub_body contents src_path dest_path dest_path_root isl d _ hguard ?_
      exact fun s => logError_mem_processDirs hmd hfail src_path dest_path dest_path_root
        isl d s
    · subst hisl
      exact syms_trace_sub_body contents src_path dest_path dest_path_root d _ hguard
        (logError_mem_symlinksTraceOf _ hms hfail)
  · intro rest
    simp [filesRet, hfail]
  · intro rest
    simp only [dirsSize]
    rw [if_pos (by simp [hfail])]
    exact zero_add _
  · intro rest
    simp [fileRowsOf, List.filter_cons, hfail]
  · intro rest
    simp [dirRowsOf, List.filter_cons, hfail]
  · intro rest
    simp [symlinkRowsOf, List.filter_cons, hfail]

/-- C7: the listing is sorted lexicographically by name before
classification, so every bucket (and hence every table of the report) is in
sorted name order, and the whole call is independent of the enumeration
order the listing collaborator produced: any permutation of a listing with
distinct names yields the identical result. -/
theorem C7_sorted_order (l₁ l₂ : List (Entry × FSTree))
    (src_path dest_path dest_path_root : List String) (isl : Bool) (d : Int) (st : DestState)
    (hperm : l₁.Perm l₂)
    (hnodup : (l₁.map fun e => e.1.name).Nodup) :
    List.Sorted (fun a b : Entry × FSTree => a.1.name ≤ b.1.name) (sortContents l₁) ∧
    List.Pairwise (fun a b : String => a ≤ b)
      ((categorize (sortContents l₁)).2.1.map fun e => e.1.name) ∧
    List.Pairwise (fun a b : String => a ≤ b)
      ((categorize (sortContents l₁)).2.2.map fun e => e.1.name) ∧
    List.Pairwise (fun a b : String => a ≤ b)
      ((categorize (sortContents l₁)).1.map fun e => e.1.name) ∧
    sortContents l₁ = sortContents l₂ ∧
    get_snapshot (FSTree.node (some l₁)) src_path dest_path dest_path_root isl d st =
      get_snapshot (FSTree.node (some l₂)) src_path dest_path dest_path_root isl d st := by
  have hsorted := sorted_names_sortContents l₁
  have hs := sortContents_perm_eq hperm hnodup
  have hbucket : ∀ P : Entry × FSTree → Bool,
      List.Pairwise (fun a b : String => a ≤ b)
        (((sortContents l₁).filter P).map fun e => e.1.name) := by
    intro P
    refine (List.pairwise_map).mpr ?_
    exact List.Pairwise.sublist (List.filter_sublist _) hsorted
  refine ⟨hsorted, ?_, ?_, ?_, hs, get_snapshot_sort_eq _ _ _ _ _ _ hs⟩
  · rw [categorize_files]
    exact hbucket _
  · rw [categorize_dirs]
    exact hbucket _
  · rw [categorize_symlinks]
    exact hbucket _

/-- C8: the level reset deletes an existing mirror directory in full and
recreates it before any write; consequently two runs over the same source
against any two well-formed destinations perform the identical write
sequence after their resets, return the same total, and end with
destinations that agree everywhere under the mirror path — nothing of a
previous run's mirror content leaks into the new one. -/
theorem C8_clean_overwrite (t : FSTree) (src_path dest_path dest_path_root : List String)
    (isl : Bool) (d : Int) (s₁ s₂ : DestState)
    (hwf₁ : WFStateB s₁ = true) (hwf₂ : WFStateB s₂ = true)
    (hnone₁ : s₁.fileAt (dest_path ++ [pathName src_path]) = none)
    (hnone₂ : s₂.fileAt (dest_path ++ [pathName src_path]) = none) :
    (∀ q, (dest_path ++ [pathName src_path]) <+: q →
      (s₁.rmtree (dest_path ++ [pathName src_path])).fileAt q = none ∧
      (s₁.rmtree (dest_path ++ [pathName src_path])).isDirAt q = false) ∧
    (∃ tl,
      (get_snapshot t src_path dest_path dest_path_root isl d s₁).tr =
        (if s₁.existsAt (dest_path ++ [pathName src_path]) then
          [Action.rmtreeAct (dest_path ++ [pathName src_path])] else []) ++
        [Action.mkdirAct (dest_path ++ [pathName src_path]),
         Action.touchAct (dest_path ++ [pathName src_path] ++
           [pathName src_path ++ ".html"])] ++ tl ∧
      (get_snapshot t src_path dest_path dest_path_root isl d s₂).tr =
        (if s₂.existsAt (dest_path ++ [pathName src_path]) then
          [Action.rmtreeAct (dest_path ++ [pathName src_path])] else []) ++
        [Action.mkdirAct (dest_path ++ [pathName src_path]),
         Action.touchAct (dest_path ++ [pathName src_path] ++
           [pathName src_path ++ ".html"])] ++ tl) ∧
    (get_snapshot t src_path dest_path dest_path_root isl d s₁).ret =
      (get_snapshot t src_path dest_path dest_path_root isl d s₂).ret ∧
    (∀ q, (dest_path ++ [pathName src_path]) <+: q →
      agreeAt q (get_snapshot t src_path dest_path dest_path_root isl d s₁).st
        (get_snapshot t src_path dest_path dest_path_root isl d s₂).st) := by
  have h₁ : (s₁.fileAt (dest_path ++ [pathName src_path])).isSome = false := by
    rw [hnone₁]
    rfl
  have h₂ : (s₂.fileAt (dest_path ++ [pathName src_path])).isSome = false := by
    rw [hnone₂]
    rfl
  have hagree := resetLevel_agree_under hwf₁ hwf₂
    (p := dest_path ++ [pathName src_path]) (by simp) (pathName src_path ++ ".html")
  obtain ⟨hbr, hbret, hbtr, hbpres⟩ :=
    snapshotBody_agree t src_path dest_path dest_path_root isl d _ _ hagree
  refine ⟨?_, ?_, ?_, ?_⟩
  · intro q hq
    constructor
    · rw [fileAt_rmtree, if_pos (List.isPrefixOf_iff_prefix.mpr hq)]
    · rw [isDirAt_rmtree]
      simp [List.isPrefixOf_iff_prefix.mpr hq]
  · refine ⟨(snapshotBody t src_path dest_path dest_path_root isl d
      (resetLevel s₂ (dest_path ++ [pathName src_path])
        (dest_path ++ [pathName src_path] ++ [pathName src_path ++ ".html"])).1).tr, ?_, ?_⟩
    · rw [get_snapshot_tr_reset _ _ _ _ _ _ _ hnone₁, hbtr]
    · rw [get_snapshot_tr_reset _ _ _ _ _ _ _ hnone₂]
  · simp only [get_snapshot, h₁, h₂, Bool.false_eq_true, if_false]
    exact hbret
  · intro q hq
    simp only [get_snapshot, h₁, h₂, Bool.false_eq_true, if_false]
    exact hbpres q (hagree q hq)

/-- C9: for a directory whose children cannot be listed (the collaborator
returns the absent result), the call completes without raising, returns a
subtree total of 0, leaves this level's report file empty, and performs
nothing beyond the level reset. -/
theorem C9_unlistable (src_path dest_path dest_path_root : List String) (isl : Bool)
    (d : Int) (st : DestState)
    (hwf : WFStateB st = true)
    (hnone : st.fileAt (dest_path ++ [pathName src_path]) = none)
    (hguard : ¬src_path = dest_path_root) :
    (get_snapshot (FSTree.node none) src_path dest_path dest_path_root isl d st).ret = 0 ∧
    (get_snapshot (FSTree.node none) src_path dest_path dest_path_root isl d st).raised
      = false ∧
    (get_snapshot (FSTree.node none) src_path dest_path dest_path_root isl d st).st.fileAt
      (dest_path ++ [pathName src_path] ++ [pathName src_path ++ ".html"]) = some [] ∧
    (get_snapshot (FSTree.node none) src_path dest_path dest_path_root isl d st).tr =
      (resetLevel st (dest_path ++ [pathName src_path])
        (dest_path ++ [pathName src_path] ++ [pathName src_path ++ ".html"])).2 := by
  have h1 : (st.fileAt (dest_path ++ [pathName src_path])).isSome = false := by
    rw [hnone]
    rfl
  simp only [get_snapshot, h1, Bool.false_eq_true, if_false]
  simp only [snapshotBody, if_neg hguard]
  refine ⟨by trivial, by trivial, ?_, by simp⟩
  rw [resetLevel_fileAt hwf (by simp) (pathName src_path ++ ".html"), if_pos rfl]

/-- C10: on every call — including one whose source equals the original
destination root — the trace starts with the unconditional level reset
(delete an existing mirror directory, recreate it, create the report file)
before anything else; in the guard case the marker write comes strictly
after those reset actions. -/
theorem C10_reset_before_guard (t : FSTree)
    (src_path dest_path dest_path_root : List String) (isl : Bool) (d : Int) (st : DestState)
    (hnone : st.fileAt (dest_path ++ [pathName src_path]) = none) :
    (∃ tl, (get_snapshot t src_path dest_path dest_path_root isl d st).tr =
      (if st.existsAt (dest_path ++ [pathName src_path]) then
        [Action.rmtreeAct (dest_path ++ [pathName src_path])] else []) ++
      [Action.mkdirAct (dest_path ++ [pathName src_path]),
       Action.touchAct (dest_path ++ [pathName src_path] ++
         [pathName src_path ++ ".html"])] ++ tl) ∧
    (src_path = dest_path_root →
      (get_snapshot t src_path dest_path dest_path_root isl d st).tr =
        (if st.existsAt (dest_path ++ [pathName src_path]) then
          [Action.rmtreeAct (dest_path ++ [pathName src_path])] else []) ++
        [Action.mkdirAct (dest_path ++ [pathName src_path]),
         Action.touchAct (dest_path ++ [pathName src_path] ++ [pathName src_path ++ ".html"]),
         Action.writeDocAct (dest_path ++ [pathName src_path] ++
           [pathName src_path ++ ".html"]) DocItem.selfRefMarker]) := by
  refine ⟨⟨_, get_snapshot_tr_reset t _ _ _ _ _ _ hnone⟩, ?_⟩
  intro hguard
  rw [get_snapshot_tr_reset t _ _ _ _ _ _ hnone,
    snapshotBody_guard_eq _ _ _ _ _ _ _ hguard]
  simp [List.append_assoc]

/-! ### Concrete samples for the witnesses -/

/-- Sample listing: two files (one failing) and a subdirectory with one
7-byte file. -/
def sampleContents : List (Entry × FSTree) :=
  [((⟨"f1", false, false, 5, false, ""⟩ : Entry), FSTree.node (some [])),
   ((⟨"f2", false, false, 3, true, ""⟩ : Entry), FSTree.node (some [])),
   ((⟨"sub", true, false, 0, false, ""⟩ : Entry),
     FSTree.node (some [((⟨"g", false, false, 7, false, ""⟩ : Entry),
       FSTree.node (some []))]))]

/-- Sample listing holding a single subdirectory. -/
def sampleDirOnly : List (Entry × FSTree) :=
  [((⟨"sub", true, false, 0, false, ""⟩ : Entry), FSTree.node (some []))]

/-- Sample listing holding a single failing file. -/
def sampleFailing : List (Entry × FSTree) :=
  [((⟨"bad", false, false, 9, true, ""⟩ : Entry), FSTree.node (some []))]

/-- A destination already holding a stale mirror of `a` under `d`. -/
def sampleDirty : DestState :=
  ⟨[["d"], ["d", "a"]], [(["d", "a", "a.html"], [DocItem.noFiles]), (["d", "a", "old"], [])]⟩

/-- A destination holding the mirror directory of `a` and its report file. -/
def sampleWithReport : DestState := ⟨[["d"], ["d", "a"]], [(["d", "a", "a.html"], [])]⟩

/-- C2 witness at a concrete listing. -/
theorem C2_footer_total_witness :
    WFStateB ⟨[], []⟩ = true ∧
    FSTree.wfB (FSTree.node (some sampleContents)) = true ∧
    DestState.fileAt ⟨[], []⟩ ["d", "a"] = none ∧
    ¬(["a"] : List String) = ["r"] ∧
    (get_snapshot (FSTree.node (some sampleContents)) ["a"] ["d"] ["r"] false 5
        ⟨[], []⟩).ret =
      filesRet (categorize (sortContents sampleContents)).2.1 +
        dirsSize (effectiveDirs (categorize (sortContents sampleContents)).2.2 5)
          ["a"] ["r"] 5 :=
  ⟨by decide, by decide, rfl, by decide,
    (C2_footer_total sampleContents ["a"] ["d"] ["r"] false 5 ⟨[], []⟩ (by decide) (by decide)
      rfl (by decide)).1⟩

/-- C3 witness at a concrete destination-root source. -/
theorem C3_self_reference_guard_witness :
    DestState.fileAt ⟨[], []⟩ ["d", "r"] = none ∧
    (["r"] : List String) = ["r"] ∧
    (get_snapshot (FSTree.node none) ["r"] ["d"] ["r"] false 3 ⟨[], []⟩).ret = -1 :=
  ⟨rfl, rfl,
    (C3_self_reference_guard (FSTree.node none) ["r"] ["d"] ["r"] false 3 ⟨[], []⟩ rfl rfl).1⟩

/-- C4 witness: one subdirectory child that is the destination root. -/
theorem C4_sentinel_bubbles_witness :
    WFStateB sampleWithReport = true ∧
    (∀ p ∈ [((⟨"r", true, false, 0, false, ""⟩ : Entry), FSTree.node (some []))],
      FSTree.wfB p.2 = true) ∧
    (["a"] ++ ["r"] : List String) = ["a", "r"] ∧
    (⟨"r", true, false, 0, false, ""⟩ : Entry).procFails = false ∧
    collides (⟨"r", true, false, 0, false, ""⟩ : Entry) (pathName ["a"]) = false ∧
    (processDirs [((⟨"r", true, false, 0, false, ""⟩ : Entry), FSTree.node (some []))]
        ["a"] ["d"] ["a", "r"] false 9 sampleWithReport).ret =
      -1 + dirsSize [] ["a"] ["a", "r"] 9 :=
  ⟨by decide, by decide, rfl, rfl, by decide,
    (C4_sentinel_bubbles (⟨"r", true, false, 0, false, ""⟩ : Entry) (FSTree.node (some []))
      [] ["a"] ["d"] ["a", "r"] false 9 sampleWithReport (by decide) (by decide) (by decide)
      (by decide) (by decide) rfl rfl (by decide)).1⟩

/-- C5 witness: one subdirectory, depth exhausted. -/
theorem C5_depth_limit_witness :
    WFStateB ⟨[], []⟩ = true ∧
    FSTree.wfB (FSTree.node (some sampleDirOnly)) = true ∧
    DestState.fileAt ⟨[], []⟩ ["d", "a"] = none ∧
    ¬(["a"] : List String) = ["r"] ∧
    (categorize (sortContents sampleDirOnly)).2.2.isEmpty = false ∧
    (get_snapshot (FSTree.node (some sampleDirOnly)) ["a"] ["d"] ["r"] false 0 ⟨[], []⟩).ret =
      filesRet (categorize (sortContents sampleDirOnly)).2.1 :=
  ⟨by decide, by decide, rfl, by decide, by decide,
    (C5_depth_limit sampleDirOnly ["a"] ["d"] ["r"] false ⟨[], []⟩ (by decide) (by decide)
      rfl (by decide) (by decide)).1⟩

/-- C6 witness: a failing file entry is logged in the run's trace. -/
theorem C6_failure_isolation_witness :
    WFStateB ⟨[], []⟩ = true ∧
    FSTree.wfB (FSTree.node (some sampleFailing)) = true ∧
    DestState.fileAt ⟨[], []⟩ ["d", "a"] = none ∧
    ¬(["a"] : List String) = ["r"] ∧
    (⟨"bad", false, false, 9, true, ""⟩ : Entry).procFails = true ∧
    ((⟨"bad", false, false, 9, true, ""⟩ : Entry), FSTree.node (some [])) ∈
      (categorize (sortContents sampleFailing)).2.1 ∧
    Action.logErrorAct "bad" ∈
      (get_snapshot (FSTree.node (some sampleFailing)) ["a"] ["d"] ["r"] false 5
        ⟨[], []⟩).tr :=
  ⟨by decide, by decide, rfl, by decide, rfl, List.mem_singleton.mpr rfl,
    (C6_failure_isolation sampleFailing (⟨"bad", false, false, 9, true, ""⟩ : Entry)
      (FSTree.node (some [])) ["a"] ["d"] ["r"] false 5 ⟨[], []⟩ (by decide) (by decide) rfl
      (by decide) rfl (Or.inl (List.mem_singleton.mpr rfl))).2.1⟩

/-- C7 witness: two enumeration orders of the same two files. -/
theorem C7_sorted_order_witness :
    ([((⟨"b", false, false, 1, false, ""⟩ : Entry), FSTree.node (some [])),
      ((⟨"a", false, false, 2, false, ""⟩ : Entry), FSTree.node (some []))].Perm
     [((⟨"a", false, false, 2, false, ""⟩ : Entry), FSTree.node (some [])),
      ((⟨"b", false, false, 1, false, ""⟩ : Entry), FSTree.node (some []))]) ∧
    ([((⟨"b", false, false, 1, false, ""⟩ : Entry), FSTree.node (some [])),
      ((⟨"a", false, false, 2, false, ""⟩ : Entry), FSTree.node (some []))].map
        fun e => e.1.name).Nodup ∧
    get_snapshot (FSTree.node (some
        [((⟨"b", false, false, 1, false, ""⟩ : Entry), FSTree.node (some [])),
         ((⟨"a", false, false, 2, false, ""⟩ : Entry), FSTree.node (some []))]))
      ["a"] ["d"] ["r"] false 3 ⟨[], []⟩ =
    get_snapshot (FSTree.node (some
        [((⟨"a", false, false, 2, false, ""⟩ : Entry), FSTree.node (some [])),
         ((⟨"b", false, false, 1, false, ""⟩ : Entry), FSTree.node (some []))]))
      ["a"] ["d"] ["r"] false 3 ⟨[], []⟩ :=
  ⟨List.Perm.swap _ _ _, by decide,
    (C7_sorted_order
      [((⟨"b", false, false, 1, false, ""⟩ : Entry), FSTree.node (some [])),
       ((⟨"a", false, false, 2, false, ""⟩ : Entry), FSTree.node (some []))]
      [((⟨"a", false, false, 2, false, ""⟩ : Entry), FSTree.node (some [])),
       ((⟨"b", false, false, 1, false, ""⟩ : Entry), FSTree.node (some []))]
      ["a"] ["d"] ["r"] false 3 ⟨[], []⟩ (List.Perm.swap _ _ _) (by decide)).2.2.2.2.2⟩

/-- C8 witness: a dirty destination and an empty one produce the same
total. -/
theorem C8_clean_overwrite_witness :
    WFStateB sampleDirty = true ∧
    WFStateB ⟨[], []⟩ = true ∧
    DestState.fileAt sampleDirty ["d", "a"] = none ∧
    DestState.fileAt ⟨[], []⟩ ["d", "a"] = none ∧
    (get_snapshot (FSTree.node (some [])) ["a"] ["d"] ["r"] false 2 sampleDirty).ret =
      (get_snapshot (FSTree.node (some [])) ["a"] ["d"] ["r"] false 2 ⟨[], []⟩).ret :=
  ⟨by decide, by decide, by decide, rfl,
    (C8_clean_overwrite (FSTree.node (some [])) ["a"] ["d"] ["r"] false 2 sampleDirty
      ⟨[], []⟩ (by decide) (by decide) (by decide) rfl).2.2.1⟩

/-- C9 witness at a concrete unlistable directory. -/
theorem C9_unlistable_witness :
    WFStateB ⟨[], []⟩ = true ∧
    DestState.fileAt ⟨[], []⟩ ["d", "a"] = none ∧
    ¬(["a"] : List String) = ["r"] ∧
    (get_snapshot (FSTree.node none) ["a"] ["d"] ["r"] false 4 ⟨[], []⟩).ret = 0 :=
  ⟨by decide, rfl, by decide,
    (C9_unlistable ["a"] ["d"] ["r"] false 4 ⟨[], []⟩ (by decide) rfl (by decide)).1⟩

/-- C10 witness: the reset actions open the trace. -/
theorem C10_reset_before_guard_witness :
    DestState.fileAt ⟨[], []⟩ ["d", "a"] = none ∧
    (∃ tl, (get_snapshot (FSTree.node none) ["a"] ["d"] ["r"] false 4 ⟨[], []⟩).tr =
      (if DestState.existsAt ⟨[], []⟩ (["d"] ++ [pathName ["a"]]) then
        [Action.rmtreeAct (["d"] ++ [pathName ["a"]])] else []) ++
      [Action.mkdirAct (["d"] ++ [pathName ["a"]]),
       Action.touchAct (["d"] ++ [pathName ["a"]] ++ [pathName ["a"] ++ ".html"])] ++ tl) :=
  ⟨rfl,
    (C10_reset_before_guard (FSTree.node none) ["a"] ["d"] ["r"] false 4 ⟨[], []⟩ rfl).1⟩

end DirSnap
